import Mathlib

/-!
Verification of the n8n-nodes-fs repository against its specification.

The development shallowly embeds the filesystem model and the operations of
the List, Copy, Move, Delete, FileInfo and FileExists nodes, together with
the shared helpers of `src/utils/fileUtils.ts`.  Filesystem trees are modelled
by the inductive `FsNode` (regular files with byte content and metadata,
directories with named children, a readability flag standing for whether
`fs.readdir` succeeds on them).  Paths are lists of components; `path.join`
becomes list append and `path.basename` the last component.  Node timestamps
are naturals; the wall clock enters the model as an explicit `now` argument.
Sizes reported by `fs.stat` equal the byte length of the file content.
JavaScript regular expressions supplied as filters are modelled as abstract
string predicates (the behaviour of `RegExp.prototype.test`).  Node's
`crypto` MD5 is modelled by an executable MD5 implementation (`MD5.md5Hex`).
Fields of output records that only reformat this data through floating-point
arithmetic (`sizeHuman`, millisecond timing) are not modelled.
-/

namespace MD5

/-- The 32-bit mask, 2^32 - 1. -/
def mask32 : Nat := 4294967295

/-- Addition modulo 2^32. -/
def add32 (a b : Nat) : Nat := (a + b) % 4294967296

/-- Bitwise complement within 32 bits (inputs are kept below 2^32). -/
def not32 (a : Nat) : Nat := Nat.xor a mask32

/-- Left rotation of a 32-bit word. -/
def rotl32 (x s : Nat) : Nat :=
  Nat.lor ((x <<< s) % 4294967296) (x >>> (32 - s))

/-- The 64 MD5 sine-derived constants (RFC 1321). -/
def kTable : List Nat :=
  [0xd76aa478, 0xe8c7b756, 0x242070db, 0xc1bdceee,
   0xf57c0faf, 0x4787c62a, 0xa8304613, 0xfd469501,
   0x698098d8, 0x8b44f7af, 0xffff5bb1, 0x895cd7be,
   0x6b901122, 0xfd987193, 0xa679438e, 0x49b40821,
   0xf61e2562, 0xc040b340, 0x265e5a51, 0xe9b6c7aa,
   0xd62f105d, 0x02441453, 0xd8a1e681, 0xe7d3fbc8,
   0x21e1cde6, 0xc33707d6, 0xf4d50d87, 0x455a14ed,
   0xa9e3e905, 0xfcefa3f8, 0x676f02d9, 0x8d2a4c8a,
   0xfffa3942, 0x8771f681, 0x6d9d6122, 0xfde5380c,
   0xa4beea44, 0x4bdecfa9, 0xf6bb4b60, 0xbebfbc70,
   0x289b7ec6, 0xeaa127fa, 0xd4ef3085, 0x04881d05,
   0xd9d4d039, 0xe6db99e5, 0x1fa27cf8, 0xc4ac5665,
   0xf4292244, 0x432aff97, 0xab9423a7, 0xfc93a039,
   0x655b59c3, 0x8f0ccc92, 0xffeff47d, 0x85845dd1,
   0x6fa87e4f, 0xfe2ce6e0, 0xa3014314, 0x4e0811a1,
   0xf7537e82, 0xbd3af235, 0x2ad7d2bb, 0xeb86d391]

/-- The 64 per-round left-rotation amounts. -/
def sTable : List Nat :=
  [7, 12, 17, 22, 7, 12, 17, 22, 7, 12, 17, 22, 7, 12, 17, 22,
   5, 9, 14, 20, 5, 9, 14, 20, 5, 9, 14, 20, 5, 9, 14, 20,
   4, 11, 16, 23, 4, 11, 16, 23, 4, 11, 16, 23, 4, 11, 16, 23,
   6, 10, 15, 21, 6, 10, 15, 21, 6, 10, 15, 21, 6, 10, 15, 21]

/-- Round function of round `i` applied to `b c d`. -/
def roundFun (i b c d : Nat) : Nat :=
  if i < 16 then Nat.lor (Nat.land b c) (Nat.land (not32 b) d)
  else if i < 32 then Nat.lor (Nat.land d b) (Nat.land (not32 d) c)
  else if i < 48 then Nat.xor b (Nat.xor c d)
  else Nat.xor c (Nat.lor b (not32 d))

/-- Message-word index for round `i`. -/
def gIndex (i : Nat) : Nat :=
  if i < 16 then i
  else if i < 32 then (5 * i + 1) % 16
  else if i < 48 then (3 * i + 5) % 16
  else (7 * i) % 16

/-- One MD5 round on the state `(a, b, c, d)` with message words `m`. -/
def md5Step (m : List Nat) (st : Nat × Nat × Nat × Nat) (i : Nat) :
    Nat × Nat × Nat × Nat :=
  let a := st.1
  let b := st.2.1
  let c := st.2.2.1
  let d := st.2.2.2
  let f := add32 (add32 (add32 (roundFun i b c d) a) (kTable.getD i 0)) (m.getD (gIndex i) 0)
  (d, add32 b (rotl32 f (sTable.getD i 0)), b, c)

/-- Little-endian 32-bit words from a byte list. -/
def leWords : List Nat → List Nat
  | b0 :: b1 :: b2 :: b3 :: rest =>
    (b0 + b1 * 256 + b2 * 65536 + b3 * 16777216) :: leWords rest
  | _ => []

/-- The 8 little-endian bytes of a 64-bit length value. -/
def le8 (n : Nat) : List Nat :=
  (List.range 8).map (fun i => n / 256 ^ i % 256)

/-- MD5 padding: a 0x80 byte, zeros to 56 mod 64, then the bit length. -/
def padMsg (msg : List Nat) : List Nat :=
  let len := msg.length
  let padZeros := (119 - len % 64) % 64
  msg ++ 128 :: List.replicate padZeros 0 ++ le8 (len * 8)

/-- Split a word list into 16-word (64-byte) chunks; the input produced by
padding always has a multiple of 16 words. -/
def chunkWords : List Nat → List (List Nat)
  | w0 :: w1 :: w2 :: w3 :: w4 :: w5 :: w6 :: w7 ::
    w8 :: w9 :: w10 :: w11 :: w12 :: w13 :: w14 :: w15 :: rest =>
    [w0, w1, w2, w3, w4, w5, w6, w7, w8, w9, w10, w11, w12, w13, w14, w15]
      :: chunkWords rest
  | [] => []
  | other => [other]

/-- Compress one 16-word chunk into the running state. -/
def processChunk (st : Nat × Nat × Nat × Nat) (m : List Nat) :
    Nat × Nat × Nat × Nat :=
  let r := (List.range 64).foldl (md5Step m) st
  (add32 st.1 r.1, add32 st.2.1 r.2.1, add32 st.2.2.1 r.2.2.1, add32 st.2.2.2 r.2.2.2)

/-- The four 32-bit MD5 state words of a message. -/
def md5Words (msg : List Nat) : Nat × Nat × Nat × Nat :=
  (chunkWords (leWords (padMsg msg))).foldl processChunk
    (0x67452301, 0xefcdab89, 0x98badcfe, 0x10325476)

/-- One lowercase hex digit. -/
def hexDigit (n : Nat) : Char :=
  if n < 10 then Char.ofNat (48 + n) else Char.ofNat (87 + n)

/-- Two lowercase hex digits of a byte. -/
def hexByte (n : Nat) : List Char := [hexDigit (n / 16 % 16), hexDigit (n % 16)]

/-- Hex rendering of a 32-bit word in little-endian byte order. -/
def wordLEHex (w : Nat) : List Char :=
  hexByte (w % 256) ++ hexByte (w / 256 % 256) ++
  hexByte (w / 65536 % 256) ++ hexByte (w / 16777216 % 256)

/-- The lowercase hex MD5 digest of a byte list: the model of Node's
`createHash('md5')` / `hash.update` / `hash.digest('hex')` pipeline. -/
def md5Hex (msg : List Nat) : String :=
  let w := md5Words msg
  String.mk (wordLEHex w.1 ++ wordLEHex w.2.1 ++ wordLEHex w.2.2.1 ++ wordLEHex w.2.2.2)

end MD5

/-- The byte list of an ASCII string. -/
def asciiBytes (s : String) : List Nat := s.data.map Char.toNat

set_option maxRecDepth 10000

namespace FsModel

/-- Timestamps and permission bits of a filesystem node (`fs.Stats` slice). -/
structure FileMeta where
  atime : Nat
  mtime : Nat
  birthtime : Nat
  mode : Nat
deriving DecidableEq

/-- A filesystem tree: regular files carry byte content and metadata;
directories carry named children in readdir order, a flag saying whether
`fs.readdir` succeeds on them, and metadata.  Paths are lists of components
relative to the tree root. -/
inductive FsNode where
  | file (content : List Nat) (meta : FileMeta)
  | dir (children : List (String × FsNode)) (readable : Bool) (meta : FileMeta)

/-- The slice of `fs.Stats` the nodes consult. -/
structure Stats where
  size : Nat
  atime : Nat
  mtime : Nat
  birthtime : Nat
  mode : Nat
  isFile : Bool
  isDirectory : Bool
deriving DecidableEq

/-- The stat of a node: a file's size is its byte length. -/
def statOf : FsNode → Stats
  | .file c m => ⟨c.length, m.atime, m.mtime, m.birthtime, m.mode, true, false⟩
  | .dir _ _ m => ⟨0, m.atime, m.mtime, m.birthtime, m.mode, false, true⟩

/-- Find a child by name. -/
def lookupChild (children : List (String × FsNode)) (name : String) : Option FsNode :=
  match children with
  | [] => none
  | (n, node) :: rest => if n = name then some node else lookupChild rest name

/-- The node at a path, if any. -/
def lookup : FsNode → List String → Option FsNode
  | node, [] => some node
  | .file _ _, _ :: _ => none
  | .dir children _ _, name :: rest =>
    match lookupChild children name with
    | none => none
    | some child => lookup child rest

/-- Replace the child named `name` (keeping its position), or append it. -/
def setChild (children : List (String × FsNode)) (name : String) (node : FsNode) :
    List (String × FsNode) :=
  match children with
  | [] => [(name, node)]
  | (n, c) :: rest =>
    if n = name then (n, node) :: rest else (n, c) :: setChild rest name node

/-- Write `newNode` at a path.  Fails (`none` = ENOENT/ENOTDIR) when an
intermediate component is missing or is a file. -/
def setPath : FsNode → List String → FsNode → Option FsNode
  | _, [], newNode => some newNode
  | .file _ _, _ :: _, _ => none
  | .dir children r m, [name], newNode => some (.dir (setChild children name newNode) r m)
  | .dir children r m, name :: rest, newNode =>
    match lookupChild children name with
    | none => none
    | some child =>
      match setPath child rest newNode with
      | none => none
      | some child2 => some (.dir (setChild children name child2) r m)

/-- Remove the node at a path (entire subtree); missing paths leave the tree
unchanged. -/
def removePath : FsNode → List String → FsNode
  | node, [] => node
  | .file c m, _ :: _ => .file c m
  | .dir children r m, [name] => .dir (children.filter (fun e => e.1 ≠ name)) r m
  | .dir children r m, name :: rest =>
    match lookupChild children name with
    | none => .dir children r m
    | some child => .dir (setChild children name (removePath child rest)) r m

/-- The default mode of directories created by `fs.mkdir` without a mode. -/
def defaultDirMode : Nat := 511

/-- The tree left behind by a *successful* recursive directory creation:
existing nodes are kept, missing directories appear with the current
timestamp and the default mode.  Proof device for stating the result of
`mkdirRec`, the model of `fs.mkdir(path, recursive: true)` itself, which
fails instead of silently skipping a file obstacle. -/
def mkdirp : FsNode → List String → Nat → FsNode
  | node, [], _ => node
  | .file c m, _ :: _, _ => .file c m
  | .dir children r m, name :: rest, now =>
    match lookupChild children name with
    | some child => .dir (setChild children name (mkdirp child rest now)) r m
    | none =>
      .dir (setChild children name
        (mkdirp (.dir [] true ⟨now, now, now, defaultDirMode⟩) rest now)) r m

/-- Model of `fs.mkdir(path, recursive: true)` itself: create every missing
directory along the path; succeed without effect when the whole path already
exists as a directory chain; fail when a file occupies the target or an
intermediate component.  On failure nothing has been created, because the
obstacle always lies on the already-existing chain, before any missing
component. -/
def mkdirRec : FsNode → List String → Nat → Except String FsNode
  | .file _ _, [], _ => .error "EEXIST: file already exists"
  | .dir children r m, [], _ => .ok (.dir children r m)
  | .file _ _, _ :: _, _ => .error "ENOTDIR: not a directory"
  | .dir children r m, name :: rest, now =>
    match lookupChild children name with
    | some child =>
      match mkdirRec child rest now with
      | .error e => .error e
      | .ok child2 => .ok (.dir (setChild children name child2) r m)
    | none =>
      match mkdirRec (.dir [] true ⟨now, now, now, defaultDirMode⟩) rest now with
      | .error e => .error e
      | .ok child2 => .ok (.dir (setChild children name child2) r m)

/-- Model of writing file bytes at a destination path (`fs.copyFile` and
`fs.writeFile` destinations): overwrite an existing file or create a fresh
one, fail with EISDIR when a directory occupies the destination, and with
ENOENT when the parent chain is missing or blocked. -/
def writeFileAt (state : FsNode) (p : List String) (content : List Nat)
    (meta : FileMeta) : Except String FsNode :=
  match lookup state p with
  | some (.dir _ _ _) => .error "EISDIR: illegal operation on a directory"
  | _ =>
    match setPath state p (.file content meta) with
    | some st => .ok st
    | none => .error "ENOENT: no such file or directory"

/-- Whether the names in a child list are pairwise distinct. -/
def nodupKeys : List (String × FsNode) → Bool
  | [] => true
  | (n, _) :: rest => !(rest.any (fun e => e.1 = n)) && nodupKeys rest

mutual

/-- Real directory listings never repeat a name; trees with this invariant
are the domain of the directory-copy theorems. -/
def nodupNames : FsNode → Bool
  | .file _ _ => true
  | .dir children _ _ => nodupKeys children && nodupNamesChildren children

def nodupNamesChildren : List (String × FsNode) → Bool
  | [] => true
  | (_, c) :: rest => nodupNames c && nodupNamesChildren rest

end

mutual

/-- Total byte size of the file payloads in a tree; directories contribute 0. -/
def sumFileSizes : FsNode → Nat
  | .file c _ => c.length
  | .dir children _ _ => sumFileSizesChildren children

def sumFileSizesChildren : List (String × FsNode) → Nat
  | [] => 0
  | (_, n) :: rest => sumFileSizes n + sumFileSizesChildren rest

end

/-- The metadata-free shape of a tree: names, structure and file bytes. -/
inductive Shape where
  | file (content : List Nat)
  | dir (children : List (String × Shape))

mutual

def shapeOf : FsNode → Shape
  | .file c _ => .file c
  | .dir children _ _ => .dir (shapeOfChildren children)

def shapeOfChildren : List (String × FsNode) → List (String × Shape)
  | [] => []
  | (n, c) :: rest => (n, shapeOf c) :: shapeOfChildren rest

end

mutual

/-- Whether every directory in the tree can be read. -/
def allReadable : FsNode → Bool
  | .file _ _ => true
  | .dir children r _ => r && allReadableChildren children

def allReadableChildren : List (String × FsNode) → Bool
  | [] => true
  | (_, c) :: rest => allReadable c && allReadableChildren rest

end

mutual

/-- Replace every unreadable directory by an empty readable directory with the
same metadata: the tree in which an unreadable subtree "contributes zero
entries". -/
def sealUnreadable : FsNode → FsNode
  | .file c m => .file c m
  | .dir children r m =>
    if r then .dir (sealUnreadableChildren children) true m
    else .dir [] true m

def sealUnreadableChildren : List (String × FsNode) → List (String × FsNode)
  | [] => []
  | (n, c) :: rest => (n, sealUnreadable c) :: sealUnreadableChildren rest

end

end FsModel

namespace FsModel

/-- The last index of a dot in a string, if any. -/
def lastDotIdx (s : String) : Option Nat :=
  ((List.range s.data.length).filter (fun i => s.data.getD i ' ' = '.')).getLast?

/-- Model of `path.extname` applied to a base name: the suffix from the last dot, or
the empty string if there is no dot or the name starts with its only dot. -/
def extname (s : String) : String :=
  match lastDotIdx s with
  | none => ""
  | some 0 => ""
  | some i => String.mk (s.data.drop i)

/-- JavaScript `String.prototype.toLowerCase` restricted to ASCII. -/
def jsToLower (s : String) : String :=
  String.mk (s.data.map (fun c =>
    if 'A' ≤ c ∧ c ≤ 'Z' then Char.ofNat (c.toNat + 32) else c))

/-- Whitespace removed by JavaScript `String.prototype.trim`
(the ASCII part relevant here). -/
def jsIsSpace (c : Char) : Bool := c = ' ' ∨ c = '\t' ∨ c = '\n' ∨ c = '\r'

/-- JavaScript `String.prototype.trim`. -/
def jsTrim (s : String) : String :=
  String.mk (((s.data.dropWhile jsIsSpace).reverse.dropWhile jsIsSpace).reverse)

/-- Split a character list at a separator character. -/
def splitChars (sep : Char) : List Char → List (List Char)
  | [] => [[]]
  | c :: rest =>
    match splitChars sep rest with
    | [] => [[]]
    | grp :: grps => if c = sep then [] :: grp :: grps else (c :: grp) :: grps

/-- JavaScript `String.prototype.split` with a one-character separator. -/
def jsSplit (s : String) (sep : Char) : List String :=
  (splitChars sep s.data).map String.mk

/-- JavaScript `String.prototype.startsWith('.')`. -/
def startsWithDot (s : String) : Bool :=
  match s.data with
  | c :: _ => c = '.'
  | [] => false

/-- The absolute-path string of a component list (for `RegExp.test(fullPath)`). -/
def pathStr (p : List String) : String := "/" ++ String.intercalate "/" p

/-- Model of `path.basename`: the last path component. -/
def basenameOf (p : List String) : String := p.getLastD ""

/-- The `toISOString().replace(/[:.]/g, '-')` sanitisation of a timestamp. -/
def sanitizeIso (s : String) : String :=
  String.mk (s.data.map (fun c => if c = ':' ∨ c = '.' then '-' else c))

end FsModel

namespace ListFilesNode

open FsModel

/-- The `filterOptions` collection of the List Files node.  Unset fields keep
their JavaScript falsy defaults (`""`, `0`); `namePattern` is the abstract
predicate of the configured regular expression, `none` when unset. -/
structure FilterOptions where
  extensionFilter : String
  namePattern : Option (String → Bool)
  minSize : Nat
  maxSize : Nat

/-- Filter options with every filter unset. -/
def noFilters : FilterOptions := ⟨"", none, 0, 0⟩

/-- One entry of the walk result, mirroring the `fileInfo` object built by
`ListFiles.getFilesRecursively` (the `relativePath` and `sizeHuman` fields,
mere reformattings through `process.cwd()` and floating point, are omitted). -/
structure ListEntry where
  name : String
  path : List String
  type : String
  extension : String
  size : Nat
  created : Nat
  modified : Nat
  accessed : Nat
  isFile : Bool
  isDirectory : Bool
  permissions : Nat
deriving DecidableEq

/-- Embedding of `passesFileFilters` from `ListFiles.node.ts`: extension allow-list, name
regular expression, and (falsy-guarded) minimum/maximum sizes. -/
def passesFileFilters (fileName : String) (stats : Stats) (fo : FilterOptions) : Bool :=
  (if fo.extensionFilter ≠ "" then
    let extensions := (jsSplit fo.extensionFilter ',').map (fun e => jsToLower (jsTrim e))
    let fileExt := jsToLower (extname fileName)
    extensions.contains fileExt
  else true) &&
  (match fo.namePattern with
   | some test => test fileName
   | none => true) &&
  (!(fo.minSize ≠ 0 && stats.size < fo.minSize)) &&
  (!(fo.maxSize ≠ 0 && stats.size > fo.maxSize))

mutual

/-- Embedding of `getFilesRecursively` from `ListFiles.node.ts`.  `fs.readdir` of an
unreadable directory throws; there is no try/catch in this walk, so the
error propagates (modelled by `Except.error`).  `fs.stat` of each child is
read off the child node. -/
def getFilesRecursively (dirPath : List String) (node : FsNode)
    (recursive includeHidden : Bool) (listMode : String) (fo : FilterOptions) :
    Except String (List ListEntry) :=
  match node with
  | .file _ _ => .error "ENOTDIR: not a directory"
  | .dir children readable _ =>
    if readable then walkChildren dirPath children recursive includeHidden listMode fo
    else .error "EACCES: permission denied"

def walkChildren (dirPath : List String) (children : List (String × FsNode))
    (recursive includeHidden : Bool) (listMode : String) (fo : FilterOptions) :
    Except String (List ListEntry) :=
  match children with
  | [] => .ok []
  | (item, child) :: rest =>
    let fullPath := dirPath ++ [item]
    let stats := statOf child
    -- Skip hidden files if not included
    if !includeHidden && startsWithDot item then
      walkChildren dirPath rest recursive includeHidden listMode fo
    else
      let isDirectory := stats.isDirectory
      let isFile := stats.isFile
      -- Apply list mode filter
      if listMode = "files" && !isFile then
        walkChildren dirPath rest recursive includeHidden listMode fo
      else if listMode = "directories" && !isDirectory then
        walkChildren dirPath rest recursive includeHidden listMode fo
      -- Apply file filters
      else if isFile && !passesFileFilters item stats fo then
        walkChildren dirPath rest recursive includeHidden listMode fo
      else
        let fileInfo : ListEntry :=
          { name := item
            path := fullPath
            type := if isDirectory then "directory" else "file"
            extension := if isFile then extname item else ""
            size := stats.size
            created := stats.birthtime
            modified := stats.mtime
            accessed := stats.atime
            isFile := isFile
            isDirectory := isDirectory
            permissions := stats.mode }
        -- Recurse into subdirectories if enabled
        if recursive && isDirectory then
          match getFilesRecursively fullPath child recursive includeHidden listMode fo with
          | .error e => .error e
          | .ok subFiles =>
            match walkChildren dirPath rest recursive includeHidden listMode fo with
            | .error e => .error e
            | .ok restFiles => .ok (fileInfo :: (subFiles ++ restFiles))
        else
          match walkChildren dirPath rest recursive includeHidden listMode fo with
          | .error e => .error e
          | .ok restFiles => .ok (fileInfo :: restFiles)

end

end ListFilesNode

namespace FileUtils

open FsModel

/-- One element of the result of the shared recursive walk in
`utils/fileUtils.ts`: `\x7b path, name, isDirectory, stats \x7d`. -/
structure UtilsEntry where
  path : List String
  name : String
  isDirectory : Bool
  stats : Stats
deriving DecidableEq

/-- Whether some pattern in the list matches the item name or the full path —
`regex.test(item) || regex.test(fullPath)` with each `RegExp` modelled as a
string predicate. -/
def matchesAny (pats : List (String → Bool)) (item : String) (fullPath : List String) : Bool :=
  pats.any (fun pat => pat item || pat (pathStr fullPath))

mutual

/-- Embedding of `getFilesRecursively` from `utils/fileUtils.ts`.  The whole readdir-and-loop
body sits in a `try` whose `catch` returns the results collected so far
("skip directories we can't read"); since `fs.stat` of a listed child is
modelled as total, the only throwing call is `fs.readdir`, which happens
before anything is collected, so an unreadable directory yields `[]`.
Recursion stops when `currentDepth >= maxDepth`. -/
def getFilesRecursively (dirPath : List String) (node : FsNode)
    (maxDepth currentDepth : Nat)
    (patterns excludePatterns : List (String → Bool)) : List UtilsEntry :=
  if currentDepth ≥ maxDepth then []
  else
    match node with
    | .file _ _ => []     -- fs.readdir throws ENOTDIR; caught
    | .dir children readable _ =>
      if readable then
        utilsWalkChildren dirPath children maxDepth currentDepth patterns excludePatterns
      else []             -- fs.readdir throws EACCES; caught

def utilsWalkChildren (dirPath : List String) (children : List (String × FsNode))
    (maxDepth currentDepth : Nat)
    (patterns excludePatterns : List (String → Bool)) : List UtilsEntry :=
  match children with
  | [] => []
  | (item, child) :: rest =>
    let fullPath := dirPath ++ [item]
    let stats := statOf child
    let fileInfo : UtilsEntry := ⟨fullPath, item, stats.isDirectory, stats⟩
    -- Apply exclude patterns
    if matchesAny excludePatterns item fullPath then
      utilsWalkChildren dirPath rest maxDepth currentDepth patterns excludePatterns
    -- Apply include patterns (if any); directories always pass
    else if !patterns.isEmpty && !matchesAny patterns item fullPath && !stats.isDirectory then
      utilsWalkChildren dirPath rest maxDepth currentDepth patterns excludePatterns
    else
      fileInfo ::
        ((if stats.isDirectory then
            getFilesRecursively fullPath child maxDepth (currentDepth + 1)
              patterns excludePatterns
          else []) ++
         utilsWalkChildren dirPath rest maxDepth currentDepth patterns excludePatterns)

end

mutual

/-- The destination subtree a directory copy produces when nothing
pre-exists beneath the destination: files keep bytes and mode with the
timestamps `copyDirectoryRecursive` writes, directories are fresh
`fs.mkdir` creations.  Proof device relating the stateful embedding below
to its source tree. -/
def copyTreeOnly (now : Nat) (preserveTimestamps : Bool) : FsNode → FsNode
  | .file c m =>
    .file c (if preserveTimestamps then ⟨m.atime, m.mtime, now, m.mode⟩
      else ⟨now, now, now, m.mode⟩)
  | .dir children _ _ =>
    .dir (copyTreeChildren now preserveTimestamps children) true
      ⟨now, now, now, defaultDirMode⟩

def copyTreeChildren (now : Nat) (preserveTimestamps : Bool) :
    List (String × FsNode) → List (String × FsNode)
  | [] => []
  | (item, child) :: rest =>
    (item, copyTreeOnly now preserveTimestamps child) ::
      copyTreeChildren now preserveTimestamps rest

end

mutual

/-- Embedding of `copyDirectoryRecursive` from `utils/fileUtils.ts`, acting on the live
filesystem `state`: first `fs.mkdir(destination, recursive)` (`mkdirRec` — a
no-op on an existing directory, an error on a file), then `fs.readdir` of
the source (failing on a file or an unreadable directory), then each child
in order — a file child through `fs.copyFile` plus `fs.utimes` when
`preserveTimestamps` is set, collapsed into one write of the final metadata
and refusing a destination occupied by a directory (`writeFileAt`); a
subdirectory child by recursion, merging into whatever already sits beneath
the destination.  The source subtree is the one captured at entry; the
theorems below keep source and destination apart, where this agrees with
the interleaved reads of the original.  An error leaves the filesystem as
already mutated.  Decisive for the preserve-timestamps claim: the
destination directory's own timestamps are never touched after creation. -/
def copyDirectoryRecursive (now : Nat) (preserveTimestamps : Bool) :
    FsNode → FsNode → List String → FsNode × Except String Nat
  | .file _ _, state, dest =>
    match mkdirRec state dest now with
    | .error e => (state, .error e)
    | .ok state1 => (state1, .error "ENOTDIR: not a directory")
  | .dir children readable _, state, dest =>
    match mkdirRec state dest now with
    | .error e => (state, .error e)
    | .ok state1 =>
      if readable then copyChildrenInto now preserveTimestamps children state1 dest
      else (state1, .error "EACCES: permission denied")

def copyChildrenInto (now : Nat) (preserveTimestamps : Bool) :
    List (String × FsNode) → FsNode → List String → FsNode × Except String Nat
  | [], state, _ => (state, .ok 0)
  | (item, child) :: rest, state, dest =>
    match child with
    | .file c m =>
      match writeFileAt state (dest ++ [item]) c
          (if preserveTimestamps then ⟨m.atime, m.mtime, now, m.mode⟩
           else ⟨now, now, now, m.mode⟩) with
      | .error e => (state, .error e)
      | .ok state2 =>
        match copyChildrenInto now preserveTimestamps rest state2 dest with
        | (stateR, .error e) => (stateR, .error e)
        | (stateR, .ok restBytes) => (stateR, .ok (c.length + restBytes))
    | .dir dc dr dm =>
      match copyDirectoryRecursive now preserveTimestamps (.dir dc dr dm) state
          (dest ++ [item]) with
      | (state2, .error e) => (state2, .error e)
      | (state2, .ok bytes) =>
        match copyChildrenInto now preserveTimestamps rest state2 dest with
        | (stateR, .error e) => (stateR, .error e)
        | (stateR, .ok restBytes) => (stateR, .ok (bytes + restBytes))

end

/-- Model of `fs.readFile`. -/
def readFile (root : FsNode) (p : List String) : Except String (List Nat) :=
  match lookup root p with
  | some (.file c _) => .ok c
  | some (.dir _ _ _) => .error "EISDIR: illegal operation on a directory"
  | none => .error "ENOENT: no such file or directory"

/-- Embedding of `calculateMd5Checksum` from `utils/fileUtils.ts`: read the whole file and
digest it with Node's crypto MD5 (modelled by `MD5.md5Hex`). -/
def calculateMd5Checksum (root : FsNode) (p : List String) : Except String String :=
  match readFile root p with
  | .error e => .error e
  | .ok content => .ok (MD5.md5Hex content)

end FileUtils

namespace CopyFileNode

open FsModel

/-- The parameters of the Copy File node after option extraction
(`copyOptions.overwrite || false`, `preserveTimestamps !== false`, ...). -/
structure CopyParams where
  sourcePath : List String
  destinationPath : List String
  overwrite : Bool
  preserveTimestamps : Bool
  createDestDir : Bool
  copyMode : String
  recursive : Bool

/-- The claim-relevant fields of the Copy File output record. -/
structure CopyResult where
  success : Bool
  copied : Bool
  sourcePath : List String
  destinationPath : List String
  sourceType : String
  copiedBytes : Nat
deriving DecidableEq

/-- Embedding of `CopyFile.execute` for one input item.  The directory branch invokes the
`copyDirectoryRecursive` *imported from `utils/fileUtils`* (the call on line
194 is unqualified, so it resolves to the module-scope import; the private
class method of the same name is never called).  Returns the per-item outcome
and the filesystem as left behind (on an error thrown mid-way, the state at
the moment of the throw). -/
def execute (state : FsNode) (p : CopyParams) (now : Nat) :
    Except String CopyResult × FsNode :=
  if p.sourcePath.isEmpty then (.error "Source path is required", state)
  else if p.destinationPath.isEmpty then (.error "Destination path is required", state)
  else
    match lookup state p.sourcePath with
    | none => (.error "Source path not found", state)
    | some srcNode =>
      let sourceStats := statOf srcNode
      let isSourceFile := sourceStats.isFile
      let isSourceDirectory := sourceStats.isDirectory
      if p.copyMode = "file" && !isSourceFile then
        (.error "Source is not a file (copy mode is 'file')", state)
      else if p.copyMode = "directory" && !isSourceDirectory then
        (.error "Source is not a directory (copy mode is 'directory')", state)
      else
        let destExists := (lookup state p.destinationPath).isSome
        if destExists && !p.overwrite then
          (.error "Destination already exists and overwrite is disabled", state)
        else
          -- Create destination directory if needed
          let destDir := p.destinationPath.dropLast
          let destDirStep : Except String FsNode :=
            if p.createDestDir && (lookup state destDir).isNone then
              mkdirRec state destDir now
            else .ok state
          match destDirStep with
          | .error e => (.error e, state)
          | .ok state1 =>
            if isSourceFile then
              match srcNode with
              | .file content m =>
                match writeFileAt state1 p.destinationPath content
                    (if p.preserveTimestamps then ⟨m.atime, m.mtime, now, m.mode⟩
                     else ⟨now, now, now, m.mode⟩) with
                | .error e => (.error e, state1)
                | .ok state2 =>
                  (.ok { success := true, copied := true
                         sourcePath := p.sourcePath, destinationPath := p.destinationPath
                         sourceType := "file", copiedBytes := sourceStats.size }, state2)
              | .dir _ _ _ => (.error "unreachable", state1)
            else if isSourceDirectory && p.recursive then
              match FileUtils.copyDirectoryRecursive now p.preserveTimestamps srcNode
                  state1 p.destinationPath with
              | (state2, .error e) => (.error e, state2)
              | (state2, .ok copiedBytes) =>
                (.ok { success := true, copied := true
                       sourcePath := p.sourcePath, destinationPath := p.destinationPath
                       sourceType := "directory", copiedBytes := copiedBytes }, state2)
            else
              (.error "Cannot copy directory without recursive option enabled", state1)

mutual

/-- The *private* `CopyFile.copyDirectoryRecursive` method — dead code (the
unqualified call in `execute` resolves to the import), embedded to exhibit
the intended behaviour: after all children are copied it restores the
destination directory's own timestamps from the source when
`preserveTimestamps` is set. -/
def privateCopyDirectoryRecursive (now : Nat) (preserveTimestamps : Bool) :
    FsNode → Except String (FsNode × Nat)
  | .file _ _ => .error "ENOTDIR: not a directory"
  | .dir children readable m =>
    if readable then
      match privateCopyChildren now preserveTimestamps children with
      | .error e => .error e
      | .ok (destChildren, total) =>
        -- Preserve directory timestamps:
        -- fs.utimes(destPath, sourceStats.atime, sourceStats.mtime) — last step
        let destMeta : FileMeta :=
          if preserveTimestamps then ⟨m.atime, m.mtime, now, defaultDirMode⟩
          else ⟨now, now, now, defaultDirMode⟩
        .ok (.dir destChildren true destMeta, total)
    else .error "EACCES: permission denied"

def privateCopyChildren (now : Nat) (preserveTimestamps : Bool) :
    List (String × FsNode) → Except String (List (String × FsNode) × Nat)
  | [] => .ok ([], 0)
  | (item, child) :: rest =>
    match child with
    | .file c m =>
      let destMeta : FileMeta :=
        if preserveTimestamps then ⟨m.atime, m.mtime, now, m.mode⟩
        else ⟨now, now, now, m.mode⟩
      match privateCopyChildren now preserveTimestamps rest with
      | .error e => .error e
      | .ok (restC, restBytes) =>
        .ok ((item, .file c destMeta) :: restC, c.length + restBytes)
    | .dir c r m =>
      match privateCopyDirectoryRecursive now preserveTimestamps (.dir c r m) with
      | .error e => .error e
      | .ok (sub, bytes) =>
        match privateCopyChildren now preserveTimestamps rest with
        | .error e => .error e
        | .ok (restC, restBytes) => .ok ((item, sub) :: restC, bytes + restBytes)

end

end CopyFileNode

namespace MoveFileNode

open FsModel

/-- The parameters of the Move File node after option extraction. -/
structure MoveParams where
  sourcePath : List String
  destinationPath : List String
  overwrite : Bool
  createDestDir : Bool
  moveMode : String
  fallbackCopy : Bool
  createBackup : Bool
  backupDirectory : List String

/-- The claim-relevant fields of the Move File output record. -/
structure MoveResult where
  success : Bool
  moved : Bool
  moveMethod : String
  backupPath : Option (List String)
deriving DecidableEq

/-- The JSON marker written for a directory "backup"
(`JSON.stringify` of the object literal on lines 210-215 of the source). -/
def directoryBackupMarker (sourcePath : List String) (nowIso : String) : String :=
  "\x7b\"originalPath\":\"" ++ pathStr sourcePath ++
  "\",\"backupTime\":\"" ++ nowIso ++
  "\",\"type\":\"directory\",\"note\":\"Directory backup - original was moved\"\x7d"

/-- Embedding of `MoveFile.execute` for one input item.  `renameError` injects the outcome
of `fs.rename` (`none` = the atomic rename succeeds, `some msg` = it throws
with message `msg`).  The backup step runs `fs.mkdir` on the backup
directory (`mkdirRec`, which can fail) and writes the backup copy or the
`.info` marker through `writeFileAt` (which refuses a directory in the
way).  The directory fallback invokes the `copyDirectoryRecursive` imported
from `utils/fileUtils` (unqualified call, line 235) with
`preserveTimestamps` defaulted to `false`, then removes the source
recursively. -/
def execute (state : FsNode) (p : MoveParams) (renameError : Option String)
    (now : Nat) (nowIso : String) : Except String MoveResult × FsNode :=
  if p.sourcePath.isEmpty then (.error "Source path is required", state)
  else if p.destinationPath.isEmpty then (.error "Destination path is required", state)
  else
    match lookup state p.sourcePath with
    | none => (.error "Source path not found", state)
    | some srcNode =>
      let sourceStats := statOf srcNode
      let isSourceFile := sourceStats.isFile
      let isSourceDirectory := sourceStats.isDirectory
      if p.moveMode = "file" && !isSourceFile then
        (.error "Source is not a file (move mode is 'file')", state)
      else if p.moveMode = "directory" && !isSourceDirectory then
        (.error "Source is not a directory (move mode is 'directory')", state)
      else
        let destExists := (lookup state p.destinationPath).isSome
        if destExists && !p.overwrite then
          (.error "Destination already exists and overwrite is disabled", state)
        else
          -- Create destination directory if needed
          let destDir := p.destinationPath.dropLast
          let destDirStep : Except String FsNode :=
            if p.createDestDir && (lookup state destDir).isNone then
              mkdirRec state destDir now
            else .ok state
          match destDirStep with
          | .error e => (.error e, state)
          | .ok state1 =>
            -- Create backup if requested
            let backupDir := if p.backupDirectory.isEmpty then ["tmp"] else p.backupDirectory
            let backupName := basenameOf p.sourcePath ++ ".backup." ++ sanitizeIso nowIso
            let backupPath := backupDir ++ [backupName]
            let backupStep : Except String (Option (List String)) × FsNode :=
              if p.createBackup then
                match mkdirRec state1 backupPath.dropLast now with
                | .error e => (.error e, state1)
                | .ok state2 =>
                  match srcNode with
                  | .file content _ =>
                    match writeFileAt state2 backupPath content ⟨now, now, now, 438⟩ with
                    | .error e => (.error e, state2)
                    | .ok state3 => (.ok (some backupPath), state3)
                  | .dir _ _ _ =>
                    -- For directories, create a simple backup reference (.info marker)
                    let markerPath := backupDir ++ [backupName ++ ".info"]
                    let marker := asciiBytes (directoryBackupMarker p.sourcePath nowIso)
                    match writeFileAt state2 markerPath marker ⟨now, now, now, 438⟩ with
                    | .error e => (.error e, state2)
                    | .ok state3 => (.ok (some backupPath), state3)
              else (.ok none, state1)
            match backupStep with
            | (.error e, stateE) => (.error e, stateE)
            | (.ok backupTaken, state3) =>
              -- Perform move operation: try atomic rename first
              match renameError with
              | none =>
                match setPath (removePath state3 p.sourcePath) p.destinationPath srcNode with
                | none => (.error "ENOENT: no such file or directory", state3)
                | some state4 =>
                  (.ok { success := true, moved := true, moveMethod := "atomic"
                         backupPath := backupTaken }, state4)
              | some renameMsg =>
                if p.fallbackCopy then
                  -- Fallback to copy + delete (for cross-filesystem moves)
                  if isSourceFile then
                    match srcNode with
                    | .file content m =>
                      match writeFileAt state3 p.destinationPath content
                          ⟨now, now, now, m.mode⟩ with
                      | .error e => (.error e, state3)
                      | .ok state4 =>
                        (.ok { success := true, moved := true, moveMethod := "copy-delete"
                               backupPath := backupTaken },
                         removePath state4 p.sourcePath)
                    | .dir _ _ _ => (.error "unreachable", state3)
                  else
                    match FileUtils.copyDirectoryRecursive now false srcNode state3
                        p.destinationPath with
                    | (state4, .error e) => (.error e, state4)
                    | (state4, .ok _) =>
                      (.ok { success := true, moved := true, moveMethod := "copy-delete"
                             backupPath := backupTaken },
                       removePath state4 p.sourcePath)
                else
                  (.error ("Move failed and fallback is disabled: " ++ renameMsg), state3)

end MoveFileNode

namespace DeleteFileNode

open FsModel

/-- The declared top-level property names of the Delete File node
(`DeleteFile.description.properties`). -/
def declaredPropertyNames : List String := ["filePath", "deleteMode", "safetyOptions"]

/-- The option names declared inside the `safetyOptions` collection. -/
def safetyOptionNames : List String :=
  ["recursive", "requireConfirmation", "confirmationText", "maxFileSize",
   "createBackup", "backupDirectory", "skipIfNotExists"]

/-- The parameters of the Delete File node.  `confirmationProvided` models the
host's value for the *undeclared* parameter of that name read on line 204
(`none` when the host does not supply it; the lookup then defaults to ""). -/
structure DeleteParams where
  filePath : List String
  deleteMode : String
  recursive : Bool
  requireConfirmation : Bool
  confirmationText : String
  maxFileSize : Nat
  createBackup : Bool
  backupDirectory : List String
  skipIfNotExists : Bool
  confirmationProvided : Option String

/-- The claim-relevant fields of the Delete File output record. -/
structure DeleteResult where
  success : Bool
  deleted : Bool
  skipped : Bool
  backupPath : Option (List String)
deriving DecidableEq

/-- Embedding of `DeleteFile.execute` for one input item: existence / mode / size /
confirmation gates in source order, then the optional backup — `fs.mkdir` on
the backup directory (`mkdirRec`, which can fail), then the file copy
(`writeFileAt`) or the directory refusal — then the deletion. -/
def execute (state : FsNode) (p : DeleteParams) (now : Nat) (nowIso : String) :
    Except String DeleteResult × FsNode :=
  if p.filePath.isEmpty then (.error "File path is required", state)
  else
    match lookup state p.filePath with
    | none =>
      if p.skipIfNotExists then
        (.ok { success := true, deleted := false, skipped := true, backupPath := none },
         state)
      else (.error "Path not found", state)
    | some node =>
      let stats := statOf node
      let isFile := stats.isFile
      let isDirectory := stats.isDirectory
      if p.deleteMode = "file" && !isFile then
        (.error "Path is not a file (delete mode is 'file')", state)
      else if p.deleteMode = "directory" && !isDirectory then
        (.error "Path is not a directory (delete mode is 'directory')", state)
      -- Check file size limit (falsy-guarded: 0 disables; directories exempt)
      else if p.maxFileSize ≠ 0 && isFile && stats.size > p.maxFileSize * 1048576 then
        (.error "File size exceeds limit", state)
      else
        -- Check confirmation requirement
        let confirmationText :=
          if p.confirmationText = "" then "DELETE" else p.confirmationText
        let providedConfirmation := p.confirmationProvided.getD ""
        if p.requireConfirmation && providedConfirmation ≠ confirmationText then
          (.error ("Deletion requires confirmation. Please provide: \"" ++
            confirmationText ++ "\""), state)
        else
          -- Create backup if requested
          let backupDir := if p.backupDirectory.isEmpty then ["tmp"] else p.backupDirectory
          let backupName := basenameOf p.filePath ++ ".backup." ++ sanitizeIso nowIso
          let backupPath := backupDir ++ [backupName]
          let backupStep : Except String (Option (List String)) × FsNode :=
            if p.createBackup then
              match mkdirRec state backupPath.dropLast now with
              | .error e => (.error e, state)
              | .ok stateM =>
                match node with
                | .file content _ =>
                  match writeFileAt stateM backupPath content ⟨now, now, now, 438⟩ with
                  | .error e => (.error e, stateM)
                  | .ok state2 => (.ok (some backupPath), state2)
                | .dir _ _ _ =>
                  (.error "Directory backup not implemented in this simplified version",
                   stateM)
            else (.ok none, state)
          match backupStep with
          | (.error e, stateE) => (.error e, stateE)
          | (.ok backupTaken, state2) =>
            -- Perform deletion
            if isFile then
              (.ok { success := true, deleted := true, skipped := false
                     backupPath := backupTaken },
               removePath state2 p.filePath)
            else if p.recursive then
              (.ok { success := true, deleted := true, skipped := false
                     backupPath := backupTaken },
               removePath state2 p.filePath)
            else
              match node with
              | .dir [] _ _ =>
                (.ok { success := true, deleted := true, skipped := false
                       backupPath := backupTaken },
                 removePath state2 p.filePath)
              | _ => (.error "ENOTEMPTY: directory not empty", state2)

end DeleteFileNode

namespace FileInfoNode

open FsModel

/-- The claim-relevant parameters of the File Info node. -/
structure InfoParams where
  filePath : List String
  calculateChecksum : Bool

/-- The claim-relevant fields of the File Info output record. -/
structure InfoReport where
  path : List String
  name : String
  type : String
  size : Nat
  checksum : Option String
  checksumError : Option String
deriving DecidableEq

/-- The *private* `FileInfo.calculateMd5Checksum` method — dead code (the
call in `execute`, line 198, is unqualified and resolves to the import from
`utils/fileUtils`) — which returns the placeholder
`md5-<byteLength>-<Date.now()>` instead of a digest. -/
def privateMd5Placeholder (root : FsNode) (p : List String) (nowMs : Nat) :
    Except String String :=
  match FileUtils.readFile root p with
  | .error e => .error e
  | .ok content => .ok ("md5-" ++ toString content.length ++ "-" ++ toString nowMs)

/-- Embedding of `FileInfo.execute` for one input item, reduced to the checksum-relevant
spine: existence check, stat, then — when `calculateChecksum` is set, the
target is a file and its size is positive — the checksum from the imported
`calculateMd5Checksum` of `utils/fileUtils`, with its errors captured in
`checksumError`. -/
def execute (state : FsNode) (p : InfoParams) : Except String InfoReport :=
  if p.filePath.isEmpty then .error "File path is required"
  else
    match lookup state p.filePath with
    | none => .error "Path not found"
    | some node =>
      let stats := statOf node
      let base : InfoReport :=
        { path := p.filePath
          name := basenameOf p.filePath
          type := if stats.isDirectory then "directory" else "file"
          size := stats.size
          checksum := none
          checksumError := none }
      if p.calculateChecksum && stats.isFile && stats.size > 0 then
        match FileUtils.calculateMd5Checksum state p.filePath with
        | .ok digest => .ok { base with checksum := some digest }
        | .error e => .ok { base with checksumError := some e }
      else .ok base

end FileInfoNode

namespace FileExistsNode

/-- A filesystem view for the File Exists node, where symbolic links matter:
a finite map from paths to nodes (file with a size, directory, or symlink
with a target path). -/
inductive SymNode where
  | file (size : Nat)
  | dir
  | symlink (target : List String)
deriving DecidableEq

/-- Whether a node is a symbolic link. -/
def SymNode.isSymlink : SymNode → Bool
  | .symlink _ => true
  | _ => false

/-- The path-to-node table. -/
def SymFs := List (List String × SymNode)

/-- The raw node recorded at a path (what `fs.lstat` would see). -/
def symLookup (fs : SymFs) (p : List String) : Option SymNode :=
  (fs.find? (fun e => e.1 = p)).map (fun e => e.2)

/-- Resolution of symbolic link chains, with fuel standing for the kernel's
ELOOP bound: the node `fs.stat` reports after following links. -/
def resolveNode (fs : SymFs) : Nat → List String → Option SymNode
  | 0, _ => none
  | fuel + 1, p =>
    match symLookup fs p with
    | some (.symlink target) => resolveNode fs fuel target
    | other => other

/-- Model of `fs.realpath`: the final path of a link chain. -/
def realpathResolve (fs : SymFs) : Nat → List String → Option (List String)
  | 0, _ => none
  | fuel + 1, p =>
    match symLookup fs p with
    | some (.symlink target) => realpathResolve fs fuel target
    | some _ => some p
    | none => none

/-- The `fs.Stats` slice the node consults. -/
structure SymStat where
  isFile : Bool
  isDirectory : Bool
  isSymbolicLink : Bool
  size : Nat
deriving DecidableEq

/-- The stat of a node. -/
def symStatOf : SymNode → SymStat
  | .file sz => ⟨true, false, false, sz⟩
  | .dir => ⟨false, true, false, 0⟩
  | .symlink _ => ⟨false, false, true, 0⟩

/-- Model of `fs.stat`: the link-following stat. -/
def statFollow (fs : SymFs) (fuel : Nat) (p : List String) : Option SymStat :=
  (resolveNode fs fuel p).map symStatOf

/-- The claim-relevant parameters of the File Exists node. -/
structure ExistsParams where
  filePath : List String
  checkType : String
  includeDetails : Bool
  resolveSymlinks : Bool

/-- The `details` object of the output record. -/
structure ExistsDetails where
  type : String
  size : Nat
  isFile : Bool
  isDirectory : Bool
  isSymbolicLink : Bool
  realPath : Option (List String)
deriving DecidableEq

/-- The claim-relevant fields of the File Exists output record. -/
structure ExistsReport where
  path : List String
  name : String
  found : Bool
  pathExists : Bool
  typeMatches : Bool
  details : Option ExistsDetails
deriving DecidableEq

/-- Embedding of `FileExists.execute` for one input item.  Both `existsSync` and the
`fs.stat` call follow symbolic links; `stats.isSymbolicLink()` is queried on
that link-following stat (line 178), and `realPath` is only resolved — and
only attached to `details` — when that query returns true. -/
def execute (fs : SymFs) (fuel : Nat) (p : ExistsParams) : Except String ExistsReport :=
  if p.filePath.isEmpty then .error "File path is required"
  else
    let stats := statFollow fs fuel p.filePath
    let pathExists := stats.isSome
    let typeMatches :=
      match stats with
      | none => true
      | some st =>
        if p.checkType = "file" then st.isFile
        else if p.checkType = "directory" then st.isDirectory
        else true
    let realPath : Option (List String) :=
      match stats with
      | some st =>
        if p.resolveSymlinks && st.isSymbolicLink then
          realpathResolve fs fuel p.filePath
        else none
      | none => none
    let details : Option ExistsDetails :=
      match stats with
      | some st =>
        if p.includeDetails then
          some { type := if st.isDirectory then "directory"
                         else if st.isFile then "file" else "other"
                 size := st.size
                 isFile := st.isFile
                 isDirectory := st.isDirectory
                 isSymbolicLink := st.isSymbolicLink
                 realPath := realPath }
        else none
      | none => none
    .ok { path := p.filePath
          name := FsModel.basenameOf p.filePath
          found := pathExists && typeMatches
          pathExists := pathExists
          typeMatches := typeMatches
          details := details }

end FileExistsNode

namespace FsModel

/-- Whether the node at a path exists and is a directory. -/
def dirAt (s : FsNode) (p : List String) : Bool :=
  match lookup s p with
  | some (.dir _ _ _) => true
  | _ => false

/-- Whether `mkdirp` along a path meets no file obstacle, so that afterwards
the full path exists as a directory. -/
def pathClear : FsNode → List String → Bool
  | .file _ _, _ => false
  | .dir _ _ _, [] => true
  | .dir children _ _, name :: rest =>
    match lookupChild children name with
    | none => true
    | some child => pathClear child rest

end FsModel

namespace Samples

open FsModel

/-- A sample metadata record. -/
def meta0 : FileMeta := ⟨1, 2, 3, 420⟩

/-- Metadata of a sample source directory whose timestamps differ from the
copy-time clock value 100. -/
def srcDirMeta : FileMeta := ⟨10, 20, 30, 493⟩

/-- A directory containing one non-hidden subdirectory holding one file. -/
def nestedTree : FsNode :=
  .dir [("sub", .dir [("a.txt", .file [104, 105] meta0)] true meta0)] true meta0

/-- A directory with an unreadable subdirectory followed by a readable file. -/
def lockedTree : FsNode :=
  .dir [("locked", .dir [("x.txt", .file [120] meta0)] false meta0),
        ("ok.txt", .file [111] meta0)] true meta0

/-- A root with an unreadable subdirectory, for the walk-abort statement. -/
def lockedTree2 : FsNode :=
  .dir [("data", .dir [("y.txt", .file [121] meta0)] false meta0)] true meta0

/-- A root holding a source directory (timestamps ≠ 100) with one file. -/
def copyState : FsNode :=
  .dir [("src", .dir [("a.txt", .file [104, 105] meta0)] true srcDirMeta)] true meta0

/-- Copy parameters: directory copy src → dst with preserveTimestamps. -/
def copyParams : CopyFileNode.CopyParams :=
  ⟨["src"], ["dst"], false, true, true, "auto", true⟩

/-- A root with a source directory and a bystander file. -/
def moveState : FsNode :=
  .dir [("src", .dir [("a.txt", .file [104, 105] meta0)] true meta0),
        ("keep.txt", .file [107] meta0)] true meta0

/-- Move parameters with fallback enabled and no backup. -/
def moveParams : MoveFileNode.MoveParams :=
  ⟨["src"], ["dst"], false, true, "auto", true, false, []⟩

/-- A root with a source directory and an existing /tmp directory. -/
def moveBackupState : FsNode :=
  .dir [("srcdir", .dir [("a.txt", .file [104] meta0)] true meta0),
        ("tmp", .dir [] true meta0)] true meta0

/-- Move parameters requesting a pre-move backup of a directory. -/
def moveBackupParams : MoveFileNode.MoveParams :=
  ⟨["srcdir"], ["dst"], false, true, "auto", true, true, []⟩

/-- Delete parameters requesting a pre-delete backup of a directory,
with the confirmation gate disabled. -/
def deleteBackupParams : DeleteFileNode.DeleteParams :=
  ⟨["srcdir"], "auto", true, false, "DELETE", 0, true, [], false, none⟩

/-- A root holding one file, for the deletion claims. -/
def deleteState : FsNode := .dir [("f.txt", .file [102] meta0)] true meta0

/-- Delete parameters with confirmation required, an *empty* configured
confirmation phrase, and the host supplying "DELETE". -/
def deleteEmptyPhraseParams : DeleteFileNode.DeleteParams :=
  ⟨["f.txt"], "auto", false, true, "", 0, false, [], false, some "DELETE"⟩

/-- Delete parameters with confirmation required and the undeclared
`confirmationProvided` parameter not supplied by the host. -/
def deleteNoProvidedParams : DeleteFileNode.DeleteParams :=
  ⟨["f.txt"], "auto", false, true, "DELETE", 0, false, [], false, none⟩

/-- A root holding the five-byte file "hello". -/
def helloState : FsNode := .dir [("f.txt", .file (asciiBytes "hello") meta0)] true meta0

/-- A symlink-containing view: `ln` is a symbolic link to the file `tgt`. -/
def symFs : FileExistsNode.SymFs :=
  [(["ln"], .symlink ["tgt"]), (["tgt"], .file 3)]

/-- File Exists parameters with details and symlink resolution enabled. -/
def existsParams : FileExistsNode.ExistsParams := ⟨["ln"], "any", true, true⟩

/-- The single entry of a files-mode listing of `helloState`. -/
def helloEntry : ListFilesNode.ListEntry :=
  { name := "f.txt", path := ["f.txt"], type := "file", extension := ".txt",
    size := 5, created := 3, modified := 2, accessed := 1,
    isFile := true, isDirectory := false, permissions := 420 }

/-- A root with a source file and an existing destination directory, for the
move-fallback EISDIR counterexample. -/
def eisdirMoveState : FsNode :=
  .dir [("a.txt", .file [104] meta0), ("d", .dir [] true meta0)] true meta0

/-- Move parameters targeting the existing directory `d` with overwrite and
fallback enabled and no backup. -/
def eisdirMoveParams : MoveFileNode.MoveParams :=
  ⟨["a.txt"], ["d"], true, true, "auto", true, false, []⟩

end Samples

/-- RFC 1321 test vector: the MD5 of the empty message. -/
theorem md5Hex_empty : MD5.md5Hex [] = "d41d8cd98f00b204e9800998ecf8427e" := by decide

/-- RFC 1321 test vector: the MD5 of "abc". -/
theorem md5Hex_abc :
    MD5.md5Hex (asciiBytes "abc") = "900150983cd24fb0d6963f7d28e17f72" := by decide


namespace FsModel

theorem lookupChild_setChild_self (children : List (String × FsNode)) (name : String)
    (node : FsNode) : lookupChild (setChild children name node) name = some node := by
  induction children with
  | nil => simp [setChild, lookupChild]
  | cons e rest ih =>
    obtain ⟨n, c⟩ := e
    by_cases h : n = name
    · subst h; simp [setChild, lookupChild]
    · simp [setChild, lookupChild, h, ih]

theorem lookupChild_setChild_ne (children : List (String × FsNode)) (name n2 : String)
    (node : FsNode) (h : n2 ≠ name) :
    lookupChild (setChild children name node) n2 = lookupChild children n2 := by
  induction children with
  | nil => simp [setChild, lookupChild, Ne.symm h]
  | cons e rest ih =>
    obtain ⟨n, c⟩ := e
    by_cases hn : n = name
    · subst hn
      simp [setChild, lookupChild, Ne.symm h]
    · by_cases hn2 : n = n2
      · subst hn2; simp [setChild, lookupChild, hn]
      · simp [setChild, lookupChild, hn, hn2, ih]

theorem lookupChild_filter_self (children : List (String × FsNode)) (name : String) :
    lookupChild (children.filter (fun e => !decide (e.1 = name))) name = none := by
  induction children with
  | nil => simp [lookupChild]
  | cons e rest ih =>
    obtain ⟨n, c⟩ := e
    by_cases h : n = name
    · subst h; simpa [List.filter_cons, decide_not] using ih
    · simpa [List.filter_cons, decide_not, h, lookupChild] using ih

theorem lookupChild_filter_ne (children : List (String × FsNode)) (name n2 : String)
    (h : n2 ≠ name) :
    lookupChild (children.filter (fun e => !decide (e.1 = name))) n2 = lookupChild children n2 := by
  induction children with
  | nil => simp [lookupChild]
  | cons e rest ih =>
    obtain ⟨n, c⟩ := e
    by_cases hn : n = name
    · subst hn
      simpa [List.filter_cons, decide_not, lookupChild, Ne.symm h] using ih
    · by_cases hn2 : n = n2
      · subst hn2; simp [List.filter_cons, decide_not, lookupChild, hn]
      · simpa [List.filter_cons, decide_not, lookupChild, hn, hn2] using ih

end FsModel

namespace FsModel

theorem lookup_setPath (p : List String) :
    ∀ (s t n : FsNode), setPath s p n = some t → lookup t p = some n := by
  induction p with
  | nil =>
    intro s t n h
    simp [setPath] at h
    subst h; simp [lookup]
  | cons name rest ih =>
    intro s t n h
    cases s with
    | file c m => simp [setPath] at h
    | dir children r m =>
      cases rest with
      | nil =>
        simp [setPath] at h
        subst h
        simp [lookup, lookupChild_setChild_self]
      | cons r2 rs =>
        simp only [setPath] at h
        cases hc : lookupChild children name with
        | none => simp [hc] at h
        | some child =>
          simp only [hc] at h
          cases hs : setPath child (r2 :: rs) n with
          | none => simp [hs] at h
          | some child2 =>
            simp only [hs, Option.some.injEq] at h
            subst h
            simp [lookup, lookupChild_setChild_self, ih child child2 n hs]

theorem lookup_setPath_preserve (p : List String) :
    ∀ (q : List String) (s t n : FsNode), setPath s p n = some t →
      ¬ p <+: q → ¬ q <+: p → lookup t q = lookup s q := by
  induction p with
  | nil =>
    intro q s t n _ h1 _
    exact absurd List.nil_prefix h1
  | cons name rest ih =>
    intro q s t n h h1 h2
    cases s with
    | file c m => simp [setPath] at h
    | dir children r m =>
      cases q with
      | nil => exact absurd List.nil_prefix h2
      | cons qn qrest =>
        by_cases hq : qn = name
        · subst hq
          have h1' : ¬ rest <+: qrest := fun hp => h1 (List.cons_prefix_cons.mpr ⟨rfl, hp⟩)
          have h2' : ¬ qrest <+: rest := fun hp => h2 (List.cons_prefix_cons.mpr ⟨rfl, hp⟩)
          cases rest with
          | nil => exact absurd List.nil_prefix h1'
          | cons r2 rs =>
            simp only [setPath] at h
            cases hc : lookupChild children qn with
            | none => simp [hc] at h
            | some child =>
              simp only [hc] at h
              cases hs : setPath child (r2 :: rs) n with
              | none => simp [hs] at h
              | some child2 =>
                simp only [hs, Option.some.injEq] at h
                subst h
                simp [lookup, lookupChild_setChild_self, hc,
                  ih qrest child child2 n hs h1' h2']
        · cases rest with
          | nil =>
            simp only [setPath, Option.some.injEq] at h
            subst h
            simp [lookup, lookupChild_setChild_ne _ _ _ _ hq]
          | cons r2 rs =>
            simp only [setPath] at h
            cases hc : lookupChild children name with
            | none => simp [hc] at h
            | some child =>
              simp only [hc] at h
              cases hs : setPath child (r2 :: rs) n with
              | none => simp [hs] at h
              | some child2 =>
                simp only [hs, Option.some.injEq] at h
                subst h
                simp [lookup, lookupChild_setChild_ne _ _ _ _ hq]

theorem lookup_removePath_self (p : List String) :
    ∀ s : FsNode, p ≠ [] → lookup (removePath s p) p = none := by
  induction p with
  | nil => intro s h; exact absurd rfl h
  | cons name rest ih =>
    intro s _
    cases s with
    | file c m => simp [removePath, lookup]
    | dir children r m =>
      cases rest with
      | nil => simp [removePath, lookup, lookupChild_filter_self]
      | cons r2 rs =>
        simp only [removePath]
        cases hc : lookupChild children name with
        | none => simp [lookup, hc]
        | some child =>
          simp [lookup, lookupChild_setChild_self, hc, ih child (by simp)]

end FsModel

namespace FsModel

theorem lookup_removePath_preserve (p : List String) :
    ∀ (q : List String) (s : FsNode), ¬ p <+: q → ¬ q <+: p →
      lookup (removePath s p) q = lookup s q := by
  induction p with
  | nil => intro q s h1 _; exact absurd List.nil_prefix h1
  | cons name rest ih =>
    intro q s h1 h2
    cases s with
    | file c m =>
      cases q <;> simp [removePath]
    | dir children r m =>
      cases q with
      | nil => exact absurd List.nil_prefix h2
      | cons qn qrest =>
        by_cases hq : qn = name
        · subst hq
          have h1' : ¬ rest <+: qrest := fun hp => h1 (List.cons_prefix_cons.mpr ⟨rfl, hp⟩)
          have h2' : ¬ qrest <+: rest := fun hp => h2 (List.cons_prefix_cons.mpr ⟨rfl, hp⟩)
          cases rest with
          | nil => exact absurd List.nil_prefix h1'
          | cons r2 rs =>
            simp only [removePath]
            cases hc : lookupChild children qn with
            | none => rfl
            | some child =>
              simp [lookup, lookupChild_setChild_self, hc, ih qrest child h1' h2']
        · cases rest with
          | nil =>
            simp [removePath, lookup, lookupChild_filter_ne _ _ _ hq]
          | cons r2 rs =>
            simp only [removePath]
            cases hc : lookupChild children name with
            | none => rfl
            | some child =>
              simp [lookup, lookupChild_setChild_ne _ _ _ _ hq]

theorem dirAt_removePath (p : List String) :
    ∀ (q : List String) (s : FsNode), ¬ p <+: q →
      dirAt (removePath s p) q = dirAt s q := by
  induction p with
  | nil => intro q s h1; exact absurd List.nil_prefix h1
  | cons name rest ih =>
    intro q s h1
    cases s with
    | file c m => cases q <;> simp [removePath]
    | dir children r m =>
      cases q with
      | nil =>
        cases rest with
        | nil => simp [removePath, dirAt, lookup]
        | cons r2 rs =>
          simp only [removePath]
          cases hc : lookupChild children name <;> simp [dirAt, lookup]
      | cons qn qrest =>
        by_cases hq : qn = name
        · subst hq
          have h1' : ¬ rest <+: qrest := fun hp => h1 (List.cons_prefix_cons.mpr ⟨rfl, hp⟩)
          cases rest with
          | nil =>
            exact absurd (List.cons_prefix_cons.mpr ⟨rfl, List.nil_prefix⟩) h1
          | cons r2 rs =>
            simp only [removePath]
            cases hc : lookupChild children qn with
            | none => rfl
            | some child =>
              simpa [dirAt, lookup, hc, lookupChild_setChild_self]
                using ih qrest child h1'
        · cases rest with
          | nil =>
            simp [removePath, dirAt, lookup, lookupChild_filter_ne _ _ _ hq]
          | cons r2 rs =>
            simp only [removePath]
            cases hc : lookupChild children name with
            | none => rfl
            | some child =>
              simp [dirAt, lookup, lookupChild_setChild_ne _ _ _ _ hq]

end FsModel

namespace FsModel

theorem setPath_some_of_dirAt (p : List String) :
    ∀ (s n : FsNode), dirAt s p.dropLast = true → p ≠ [] →
      ∃ t, setPath s p n = some t := by
  induction p with
  | nil => intro s n _ h; exact absurd rfl h
  | cons name rest ih =>
    intro s n hd _
    cases rest with
    | nil =>
      cases s with
      | file c m => simp [dirAt, lookup] at hd
      | dir children r m => exact ⟨_, rfl⟩
    | cons r2 rs =>
      cases s with
      | file c m => simp [dirAt, lookup] at hd
      | dir children r m =>
        have hdrop : (name :: r2 :: rs).dropLast = name :: (r2 :: rs).dropLast := rfl
        rw [hdrop] at hd
        simp only [dirAt, lookup] at hd
        cases hc : lookupChild children name with
        | none => simp [hc] at hd
        | some child =>
          simp only [hc] at hd
          have hchild : dirAt child (r2 :: rs).dropLast = true := by
            simpa [dirAt] using hd
          obtain ⟨t2, ht2⟩ := ih child n hchild (by simp)
          exact ⟨.dir (setChild children name t2) r m, by simp [setPath, hc, ht2]⟩

theorem dirAt_mkdirp_empty (rest : List String) (mta : FileMeta) :
    pathClear (.dir [] true mta) rest = true := by
  cases rest <;> simp [pathClear, lookupChild]

theorem dirAt_mkdirp_self (p : List String) :
    ∀ (s : FsNode) (now : Nat), pathClear s p = true →
      dirAt (mkdirp s p now) p = true := by
  induction p with
  | nil =>
    intro s now hc
    cases s with
    | file c m => simp [pathClear] at hc
    | dir children r m => simp [mkdirp, dirAt, lookup]
  | cons name rest ih =>
    intro s now hc
    cases s with
    | file c m => simp [pathClear] at hc
    | dir children r m =>
      simp only [pathClear] at hc
      cases hl : lookupChild children name with
      | none =>
        simp only [mkdirp, hl]
        have := ih (.dir [] true ⟨now, now, now, defaultDirMode⟩) now
          (dirAt_mkdirp_empty rest ⟨now, now, now, defaultDirMode⟩)
        simpa [dirAt, lookup, lookupChild_setChild_self] using this
      | some child =>
        simp only [hl] at hc
        simp only [mkdirp, hl]
        simpa [dirAt, lookup, lookupChild_setChild_self] using ih child now hc

theorem dirAt_mkdirp_preserve (p : List String) :
    ∀ (q : List String) (s : FsNode) (now : Nat), dirAt s q = true →
      dirAt (mkdirp s p now) q = true := by
  induction p with
  | nil => intro q s now h; simpa [mkdirp] using h
  | cons name rest ih =>
    intro q s now h
    cases s with
    | file c m => simpa [mkdirp] using h
    | dir children r m =>
      cases q with
      | nil =>
        simp only [mkdirp]
        cases hl : lookupChild children name <;> simp [dirAt, lookup]
      | cons qn qrest =>
        simp only [dirAt, lookup] at h
        cases hq : lookupChild children qn with
        | none => simp [hq] at h
        | some child =>
          simp only [hq] at h
          have hchild : dirAt child qrest = true := by simpa [dirAt] using h
          by_cases hn : qn = name
          · subst hn
            simp only [mkdirp, hq]
            simpa [dirAt, lookup, lookupChild_setChild_self] using ih qrest child now hchild
          · simp only [mkdirp]
            cases hl : lookupChild children name with
            | none =>
              simpa [dirAt, lookup, lookupChild_setChild_ne _ _ _ _ hn, hq] using hchild
            | some child2 =>
              simpa [dirAt, lookup, lookupChild_setChild_ne _ _ _ _ hn, hq] using hchild

theorem lookup_isSome_of_dirAt (s : FsNode) (p : List String) (h : dirAt s p = true) :
    (lookup s p).isSome = true := by
  unfold dirAt at h
  cases hl : lookup s p with
  | none => simp [hl] at h
  | some node => simp

end FsModel

namespace FsModel

theorem lookupChild_append (l1 l2 : List (String × FsNode)) (n : String) :
    lookupChild (l1 ++ l2) n
      = match lookupChild l1 n with
        | some x => some x
        | none => lookupChild l2 n := by
  induction l1 with
  | nil => simp [lookupChild]
  | cons e rest ih =>
    obtain ⟨en, ev⟩ := e
    by_cases h : en = n
    · simp [lookupChild, h]
    · simp only [List.cons_append, lookupChild, if_neg h]
      exact ih

theorem setChild_append_of_absent (ch : List (String × FsNode)) (n : String) (v : FsNode)
    (h : lookupChild ch n = none) : setChild ch n v = ch ++ [(n, v)] := by
  induction ch with
  | nil => simp [setChild]
  | cons e rest ih =>
    obtain ⟨en, ev⟩ := e
    simp only [lookupChild] at h
    by_cases he : en = n
    · simp [he] at h
    · simp only [if_neg he] at h
      simp [setChild, he, ih h]

theorem setChild_self_eq (ch : List (String × FsNode)) (n : String) (v : FsNode)
    (h : lookupChild ch n = some v) : setChild ch n v = ch := by
  induction ch with
  | nil => simp [lookupChild] at h
  | cons e rest ih =>
    obtain ⟨en, ev⟩ := e
    simp only [lookupChild] at h
    by_cases he : en = n
    · simp only [if_pos he] at h
      injection h with h2
      subst h2
      simp [setChild, he]
    · simp only [if_neg he] at h
      simp [setChild, he, ih h]

theorem setChild_setChild (ch : List (String × FsNode)) (n : String) (a b : FsNode) :
    setChild (setChild ch n a) n b = setChild ch n b := by
  induction ch with
  | nil => simp [setChild]
  | cons e rest ih =>
    obtain ⟨en, ev⟩ := e
    by_cases he : en = n
    · simp [setChild, he]
    · simp [setChild, he, ih]

theorem lookup_concat (q : List String) (n : String) :
    ∀ s : FsNode, lookup s (q ++ [n])
      = match lookup s q with
        | some (.dir ch _ _) => lookupChild ch n
        | _ => none := by
  induction q with
  | nil =>
    intro s
    cases s with
    | file c m => simp [lookup]
    | dir ch r m =>
      cases hc : lookupChild ch n <;> simp [lookup, hc]
  | cons h t ih =>
    intro s
    cases s with
    | file c m => simp [lookup]
    | dir ch r m =>
      simp only [List.cons_append, lookup]
      cases hc : lookupChild ch h with
      | none => simp
      | some child => exact ih child

theorem setPath_concat (q : List String) (n : String) :
    ∀ (s : FsNode) (ch : List (String × FsNode)) (r : Bool) (m : FileMeta) (v : FsNode),
      lookup s q = some (.dir ch r m) →
      setPath s (q ++ [n]) v = setPath s q (.dir (setChild ch n v) r m) := by
  induction q with
  | nil =>
    intro s ch r m v h
    simp only [lookup, Option.some.injEq] at h
    subst h
    simp [setPath]
  | cons hh t ih =>
    intro s ch r m v h
    cases s with
    | file c m2 => simp [lookup] at h
    | dir ch2 r2 m2 =>
      simp only [lookup] at h
      cases hc : lookupChild ch2 hh with
      | none => simp [hc] at h
      | some child =>
        simp only [hc] at h
        cases t with
        | nil =>
          simp only [lookup, Option.some.injEq] at h
          subst h
          simp [setPath, hc]
        | cons t1 ts =>
          have := ih child ch r m v h
          rw [List.cons_append] at this
          simp only [List.cons_append, setPath, hc, List.append_eq]
          rw [this]

theorem setPath_some_of_lookup (q : List String) :
    ∀ (s x v : FsNode), lookup s q = some x → ∃ t, setPath s q v = some t := by
  induction q with
  | nil => intro s x v _; exact ⟨v, by cases s <;> rfl⟩
  | cons hh t ih =>
    intro s x v h
    cases s with
    | file c m => simp [lookup] at h
    | dir ch r m =>
      simp only [lookup] at h
      cases hc : lookupChild ch hh with
      | none => simp [hc] at h
      | some child =>
        simp only [hc] at h
        cases t with
        | nil => exact ⟨_, rfl⟩
        | cons t1 ts =>
          obtain ⟨t2, ht2⟩ := ih child x v h
          exact ⟨.dir (setChild ch hh t2) r m, by simp [setPath, hc, ht2]⟩

theorem setPath_setPath (q : List String) :
    ∀ (s a t : FsNode), setPath s q a = some t →
      ∀ b, setPath t q b = setPath s q b := by
  induction q with
  | nil => intro s a t h b; simp [setPath]
  | cons hh tl ih =>
    intro s a t h b
    cases s with
    | file c m => simp [setPath] at h
    | dir ch r m =>
      cases tl with
      | nil =>
        simp only [setPath, Option.some.injEq] at h
        subst h
        simp [setPath, setChild_setChild]
      | cons t1 ts =>
        simp only [setPath] at h
        cases hc : lookupChild ch hh with
        | none => simp [hc] at h
        | some child =>
          simp only [hc] at h
          cases hs : setPath child (t1 :: ts) a with
          | none => simp [hs] at h
          | some child2 =>
            simp only [hs, Option.some.injEq] at h
            subst h
            simp only [setPath, lookupChild_setChild_self, hc]
            rw [ih child a child2 hs b]
            cases hb : setPath child (t1 :: ts) b with
            | none => rfl
            | some cb => simp [setChild_setChild]

theorem setPath_lookup_self (q : List String) :
    ∀ (s v : FsNode), lookup s q = some v → setPath s q v = some s := by
  induction q with
  | nil =>
    intro s v h
    simp only [lookup, Option.some.injEq] at h
    subst h
    cases s <;> rfl
  | cons hh t ih =>
    intro s v h
    cases s with
    | file c m => simp [lookup] at h
    | dir ch r m =>
      simp only [lookup] at h
      cases hc : lookupChild ch hh with
      | none => simp [hc] at h
      | some child =>
        simp only [hc] at h
        cases t with
        | nil =>
          simp only [lookup, Option.some.injEq] at h
          subst h
          simp [setPath, setChild_self_eq ch hh child hc]
        | cons t1 ts =>
          simp [setPath, hc, ih child v h, setChild_self_eq ch hh child hc]

theorem pathClear_concat_absent (q : List String) (n : String) :
    ∀ (s : FsNode) (ch : List (String × FsNode)) (r : Bool) (m : FileMeta),
      lookup s q = some (.dir ch r m) → lookupChild ch n = none →
      pathClear s (q ++ [n]) = true := by
  induction q with
  | nil =>
    intro s ch r m h hn
    simp only [lookup, Option.some.injEq] at h
    subst h
    simp [pathClear, hn]
  | cons hh t ih =>
    intro s ch r m h hn
    cases s with
    | file c m2 => simp [lookup] at h
    | dir ch2 r2 m2 =>
      simp only [lookup] at h
      cases hc : lookupChild ch2 hh with
      | none => simp [hc] at h
      | some child =>
        simp only [hc] at h
        simp [pathClear, hc, ih child ch r m h hn]

theorem mkdirRec_eq_mkdirp (q : List String) :
    ∀ (s : FsNode) (now : Nat), pathClear s q = true →
      mkdirRec s q now = .ok (mkdirp s q now) := by
  induction q with
  | nil =>
    intro s now h
    cases s with
    | file c m => simp [pathClear] at h
    | dir ch r m => simp [mkdirRec, mkdirp]
  | cons hh t ih =>
    intro s now h
    cases s with
    | file c m => simp [pathClear] at h
    | dir ch r m =>
      simp only [pathClear] at h
      cases hc : lookupChild ch hh with
      | none =>
        have hclear : pathClear (.dir [] true ⟨now, now, now, defaultDirMode⟩) t = true :=
          dirAt_mkdirp_empty t _
        simp [mkdirRec, mkdirp, hc, ih _ now hclear]
      | some child =>
        simp only [hc] at h
        simp [mkdirRec, mkdirp, hc, ih child now h]

theorem mkdirp_concat_absent (q : List String) (n : String) :
    ∀ (s : FsNode) (ch : List (String × FsNode)) (r : Bool) (m : FileMeta) (now : Nat),
      lookup s q = some (.dir ch r m) → lookupChild ch n = none →
      setPath s (q ++ [n]) (.dir [] true ⟨now, now, now, defaultDirMode⟩)
        = some (mkdirp s (q ++ [n]) now) := by
  induction q with
  | nil =>
    intro s ch r m now h hn
    simp only [lookup, Option.some.injEq] at h
    subst h
    simp [setPath, mkdirp, hn]
  | cons hh t ih =>
    intro s ch r m now h hn
    cases s with
    | file c m2 => simp [lookup] at h
    | dir ch2 r2 m2 =>
      simp only [lookup] at h
      cases hc : lookupChild ch2 hh with
      | none => simp [hc] at h
      | some child =>
        simp only [hc] at h
        cases t with
        | nil =>
          simp only [lookup, Option.some.injEq] at h
          subst h
          simp [setPath, mkdirp, hc, hn]
        | cons t1 ts =>
          have := ih child ch r m now h hn
          rw [List.cons_append] at this
          simp only [List.cons_append, setPath, mkdirp, hc, List.append_eq]
          rw [this]

theorem lookup_concat_mkdirp_empty (t : List String) (n : String) :
    ∀ (mta : FileMeta) (now : Nat),
      lookup (mkdirp (.dir [] true mta) t now) (t ++ [n]) = none := by
  induction t with
  | nil => intro mta now; simp [mkdirp, lookup, lookupChild]
  | cons hh ts ih =>
    intro mta now
    simp only [mkdirp, lookupChild, setChild, List.cons_append, lookup]
    simp [lookupChild, ih]

theorem lookup_concat_mkdirp_none (q : List String) (n : String) :
    ∀ (s : FsNode) (now : Nat), pathClear s q = true →
      lookup s (q ++ [n]) = none →
      lookup (mkdirp s q now) (q ++ [n]) = none := by
  induction q with
  | nil => intro s now _ h; simpa [mkdirp] using h
  | cons hh t ih =>
    intro s now hc h
    cases s with
    | file c m => simp [pathClear] at hc
    | dir ch r m =>
      simp only [pathClear] at hc
      cases hl : lookupChild ch hh with
      | none =>
        simp only [mkdirp, hl]
        simp [lookup, lookupChild_setChild_self, lookup_concat_mkdirp_empty]
      | some child =>
        simp only [hl] at hc
        simp only [List.cons_append, lookup, hl] at h
        simp only [mkdirp, hl]
        simp [lookup, lookupChild_setChild_self, ih child now hc h]

theorem keys_ne_of_any_eq_false (l : List (String × FsNode)) (n : String)
    (h : l.any (fun e => e.1 = n) = false) : ∀ pr ∈ l, pr.1 ≠ n := by
  intro pr hpr heq
  have h2 : l.any (fun e => e.1 = n) = true :=
    List.any_eq_true.mpr ⟨pr, hpr, by simp [heq]⟩
  rw [h2] at h
  simp at h

end FsModel

namespace FileUtils

open FsModel

mutual

theorem shapeOf_copyTreeOnly :
    ∀ (n : FsNode) (now : Nat) (pt : Bool), shapeOf (copyTreeOnly now pt n) = shapeOf n
  | .file c m => by intro now pt; simp [copyTreeOnly, shapeOf]
  | .dir children r m => by
    intro now pt
    simp [copyTreeOnly, shapeOf, shapeOf_copyTreeChildren children now pt]

theorem shapeOf_copyTreeChildren :
    ∀ (l : List (String × FsNode)) (now : Nat) (pt : Bool),
      shapeOfChildren (copyTreeChildren now pt l) = shapeOfChildren l
  | [] => by intro now pt; simp [copyTreeChildren, shapeOfChildren]
  | (item, c) :: rest => by
    intro now pt
    simp [copyTreeChildren, shapeOfChildren, shapeOf_copyTreeOnly c now pt,
      shapeOf_copyTreeChildren rest now pt]

end

mutual

theorem copyDirectoryRecursive_fresh :
    ∀ (n : FsNode) (now : Nat) (pt : Bool),
      allReadable n = true → nodupNames n = true →
      ∀ (children : List (String × FsNode)) (r : Bool) (m : FileMeta),
        n = .dir children r m →
        ∀ (state : FsNode) (dest : List String),
          lookup state dest = none → dirAt state dest.dropLast = true →
          ∃ st, copyDirectoryRecursive now pt n state dest = (st, .ok (sumFileSizes n)) ∧
            setPath state dest (copyTreeOnly now pt n) = some st
  | .file c m => by
    intro now pt _ _ children r mm heq
    exact absurd heq (by simp)
  | .dir children r m => by
    intro now pt hread hnodup children2 r2 m2 _ state dest hno hpar
    simp only [allReadable, Bool.and_eq_true] at hread
    obtain ⟨hr, hrc⟩ := hread
    simp only [nodupNames, Bool.and_eq_true] at hnodup
    obtain ⟨hnk, hnc⟩ := hnodup
    have hdne : dest ≠ [] := by
      intro hd
      subst hd
      cases state <;> simp [lookup] at hno
    obtain ⟨q, x, rfl⟩ : ∃ q x, dest = q ++ [x] :=
      ⟨dest.dropLast, dest.getLast hdne, (List.dropLast_append_getLast hdne).symm⟩
    rw [List.dropLast_concat] at hpar
    obtain ⟨pch, pr2, pm2, hplook⟩ : ∃ pch pr2 pm2,
        lookup state q = some (.dir pch pr2 pm2) := by
      unfold dirAt at hpar
      cases hx : lookup state q with
      | none => simp [hx] at hpar
      | some nd =>
        cases nd with
        | file cc mm => simp [hx] at hpar
        | dir a b c => exact ⟨a, b, c, rfl⟩
    have hcc := lookup_concat q x state
    rw [hno] at hcc
    simp only [hplook] at hcc
    have hlast : lookupChild pch x = none := hcc.symm
    have hclear : pathClear state (q ++ [x]) = true :=
      pathClear_concat_absent q x state pch pr2 pm2 hplook hlast
    have hmk : mkdirRec state (q ++ [x]) now = .ok (mkdirp state (q ++ [x]) now) :=
      mkdirRec_eq_mkdirp (q ++ [x]) state now hclear
    have hset1 : setPath state (q ++ [x]) (.dir [] true ⟨now, now, now, defaultDirMode⟩)
        = some (mkdirp state (q ++ [x]) now) :=
      mkdirp_concat_absent q x state pch pr2 pm2 now hplook hlast
    have hlk1 : lookup (mkdirp state (q ++ [x]) now) (q ++ [x])
        = some (.dir [] true ⟨now, now, now, defaultDirMode⟩) :=
      lookup_setPath (q ++ [x]) state _ _ hset1
    obtain ⟨st, hrun, hsetp⟩ := copyChildrenInto_fresh children now pt hrc hnk hnc
      (mkdirp state (q ++ [x]) now) (q ++ [x]) [] true ⟨now, now, now, defaultDirMode⟩
      hlk1 (fun pr _ => rfl)
    refine ⟨st, ?_, ?_⟩
    · simp only [copyDirectoryRecursive, hmk, hr, if_true]
      rw [hrun]
      simp [sumFileSizes]
    · have hcomm := setPath_setPath (q ++ [x]) state _ (mkdirp state (q ++ [x]) now) hset1
        (.dir ([] ++ copyTreeChildren now pt children) true ⟨now, now, now, defaultDirMode⟩)
      rw [hcomm] at hsetp
      simpa [copyTreeOnly] using hsetp

theorem copyChildrenInto_fresh :
    ∀ (l : List (String × FsNode)) (now : Nat) (pt : Bool),
      allReadableChildren l = true → nodupKeys l = true → nodupNamesChildren l = true →
      ∀ (state : FsNode) (dest : List String) (dch : List (String × FsNode))
        (rb : Bool) (mb : FileMeta),
        lookup state dest = some (.dir dch rb mb) →
        (∀ pr ∈ l, lookupChild dch pr.1 = none) →
        ∃ st, copyChildrenInto now pt l state dest = (st, .ok (sumFileSizesChildren l)) ∧
          setPath state dest (.dir (dch ++ copyTreeChildren now pt l) rb mb) = some st
  | [] => by
    intro now pt _ _ _ state dest dch rb mb hlk _
    refine ⟨state, ?_, ?_⟩
    · simp [copyChildrenInto, sumFileSizesChildren]
    · simpa [copyTreeChildren] using setPath_lookup_self dest state _ hlk
  | (item, c) :: rest => by
    intro now pt hread hnk hnc state dest dch rb mb hlk hfree
    simp only [allReadableChildren, Bool.and_eq_true] at hread
    obtain ⟨hc1, hcrest⟩ := hread
    simp only [nodupKeys, Bool.and_eq_true, Bool.not_eq_true'] at hnk
    obtain ⟨hkh, hkrest⟩ := hnk
    simp only [nodupNamesChildren, Bool.and_eq_true] at hnc
    obtain ⟨hnh, hnrest⟩ := hnc
    have hfreeh : lookupChild dch item = none := hfree (item, c) (by simp)
    have hdistinct : ∀ pr ∈ rest, pr.1 ≠ item := keys_ne_of_any_eq_false rest item hkh
    have hlkc : lookup state (dest ++ [item]) = none := by
      have hcc := lookup_concat dest item state
      simp only [hlk] at hcc
      exact hcc.trans hfreeh
    cases c with
    | file cc cm =>
      set fmeta : FileMeta := (if pt then ⟨cm.atime, cm.mtime, now, cm.mode⟩
        else ⟨now, now, now, cm.mode⟩) with hfm
      have hsc := setPath_concat dest item state dch rb mb (.file cc fmeta) hlk
      obtain ⟨st1, hst1⟩ := setPath_some_of_lookup dest state (.dir dch rb mb)
        (.dir (setChild dch item (.file cc fmeta)) rb mb) hlk
      have hwf : writeFileAt state (dest ++ [item]) cc fmeta = .ok st1 := by
        simp only [writeFileAt, hlkc, hsc, hst1]
      have hsetc : setChild dch item (.file cc fmeta) = dch ++ [(item, .file cc fmeta)] :=
        setChild_append_of_absent dch item _ hfreeh
      have hst1' : setPath state dest (.dir (dch ++ [(item, .file cc fmeta)]) rb mb)
          = some st1 := by rwa [hsetc] at hst1
      have hlk1 : lookup st1 dest = some (.dir (dch ++ [(item, .file cc fmeta)]) rb mb) :=
        lookup_setPath dest state st1 _ hst1'
      have hfree1 : ∀ pr ∈ rest,
          lookupChild (dch ++ [(item, .file cc fmeta)]) pr.1 = none := by
        intro pr hpr
        rw [lookupChild_append]
        rw [hfree pr (List.mem_cons_of_mem _ hpr)]
        simp [lookupChild, Ne.symm (hdistinct pr hpr)]
      obtain ⟨st, hrun, hsetp⟩ := copyChildrenInto_fresh rest now pt hcrest hkrest hnrest
        st1 dest (dch ++ [(item, .file cc fmeta)]) rb mb hlk1 hfree1
      refine ⟨st, ?_, ?_⟩
      · simp only [copyChildrenInto, ← hfm, hwf, hrun]
        simp [sumFileSizesChildren, sumFileSizes]
      · have hcomm := setPath_setPath dest state _ st1 hst1'
          (.dir ((dch ++ [(item, .file cc fmeta)]) ++ copyTreeChildren now pt rest) rb mb)
        rw [hcomm] at hsetp
        simpa [copyTreeChildren, copyTreeOnly, List.append_assoc, ← hfm] using hsetp
    | dir dcc dcr dcm =>
      have hpar1 : dirAt state (dest ++ [item]).dropLast = true := by
        rw [List.dropLast_concat]
        simp [dirAt, hlk]
      obtain ⟨st1, hrun1, hsetp1⟩ := copyDirectoryRecursive_fresh (.dir dcc dcr dcm) now pt
        hc1 hnh dcc dcr dcm rfl state (dest ++ [item]) hlkc hpar1
      have hsc := setPath_concat dest item state dch rb mb
        (copyTreeOnly now pt (.dir dcc dcr dcm)) hlk
      rw [hsc] at hsetp1
      have hsetc : setChild dch item (copyTreeOnly now pt (.dir dcc dcr dcm))
          = dch ++ [(item, copyTreeOnly now pt (.dir dcc dcr dcm))] :=
        setChild_append_of_absent dch item _ hfreeh
      rw [hsetc] at hsetp1
      have hlk1 : lookup st1 dest
          = some (.dir (dch ++ [(item, copyTreeOnly now pt (.dir dcc dcr dcm))]) rb mb) :=
        lookup_setPath dest state st1 _ hsetp1
      have hfree1 : ∀ pr ∈ rest,
          lookupChild (dch ++ [(item, copyTreeOnly now pt (.dir dcc dcr dcm))]) pr.1
            = none := by
        intro pr hpr
        rw [lookupChild_append]
        rw [hfree pr (List.mem_cons_of_mem _ hpr)]
        simp [lookupChild, Ne.symm (hdistinct pr hpr)]
      obtain ⟨st, hrun, hsetp⟩ := copyChildrenInto_fresh rest now pt hcrest hkrest hnrest
        st1 dest (dch ++ [(item, copyTreeOnly now pt (.dir dcc dcr dcm))]) rb mb hlk1 hfree1
      refine ⟨st, ?_, ?_⟩
      · simp only [copyChildrenInto, hrun1, hrun]
        simp [sumFileSizesChildren, sumFileSizes]
      · have hcomm := setPath_setPath dest state _ st1 hsetp1
          (.dir ((dch ++ [(item, copyTreeOnly now pt (.dir dcc dcr dcm))])
            ++ copyTreeChildren now pt rest) rb mb)
        rw [hcomm] at hsetp
        simpa [copyTreeChildren, List.append_assoc] using hsetp

end

end FileUtils


namespace ListFilesNode

open FsModel

theorem walkChildren_files_no_dir (dirPath : List String) (recursive includeHidden : Bool)
    (fo : FilterOptions) :
    ∀ (children : List (String × FsNode)) (es : List ListEntry),
      walkChildren dirPath children recursive includeHidden "files" fo = .ok es →
      ∀ e ∈ es, e.isDirectory = false := by
  intro children
  induction children with
  | nil =>
    intro es h e he
    simp only [walkChildren, Except.ok.injEq] at h
    subst h
    simp at he
  | cons hd rest ih =>
    obtain ⟨item, child⟩ := hd
    intro es h e he
    cases child with
    | dir dch dr dm =>
      simp [walkChildren, statOf] at h
      exact ih es h e he
    | file cc cm =>
      simp only [walkChildren, statOf] at h
      by_cases hh : (!includeHidden && startsWithDot item) = true
      · simp only [hh, if_true] at h
        exact ih es h e he
      · by_cases hp : passesFileFilters item
            ⟨cc.length, cm.atime, cm.mtime, cm.birthtime, cm.mode, true, false⟩ fo = true
        · simp only [hh, hp] at h
          simp at h
          cases hw : walkChildren dirPath rest recursive includeHidden "files" fo with
          | error err => rw [hw] at h; simp at h
          | ok restFiles =>
            rw [hw] at h
            simp only [Except.ok.injEq] at h
            subst h
            rcases List.mem_cons.mp he with he1 | he2
            · subst he1; rfl
            · exact ih restFiles hw e he2
        · simp only [hh, hp] at h
          simp at h
          exact ih es h e he

theorem getFiles_files_no_dir (node : FsNode) (dirPath : List String)
    (recursive includeHidden : Bool) (fo : FilterOptions) (es : List ListEntry)
    (h : getFilesRecursively dirPath node recursive includeHidden "files" fo = .ok es) :
    ∀ e ∈ es, e.isDirectory = false := by
  cases node with
  | file c m => simp [getFilesRecursively] at h
  | dir children r m =>
    simp only [getFilesRecursively] at h
    by_cases hr : r = true
    · rw [if_pos hr] at h
      exact walkChildren_files_no_dir dirPath recursive includeHidden fo children es h
    · rw [if_neg hr] at h
      simp at h

end ListFilesNode

namespace ListFilesNode

open FsModel

theorem walkChildren_files_rec_irrelevant (dirPath : List String) (includeHidden : Bool)
    (fo : FilterOptions) :
    ∀ children : List (String × FsNode),
      walkChildren dirPath children true includeHidden "files" fo =
        walkChildren dirPath children false includeHidden "files" fo := by
  intro children
  induction children with
  | nil => rfl
  | cons hd rest ih =>
    obtain ⟨item, child⟩ := hd
    cases child with
    | dir dch dr dm => simp [walkChildren, statOf, ih]
    | file cc cm =>
      simp only [walkChildren, statOf]
      by_cases hh : (!includeHidden && startsWithDot item) = true
      · simp only [hh, if_true]
        exact ih
      · by_cases hp : passesFileFilters item
            ⟨cc.length, cm.atime, cm.mtime, cm.birthtime, cm.mode, true, false⟩ fo = true
        · simp only [hh, hp]
          simp [ih]
        · simp only [hh, hp]
          simp [ih]

theorem getFiles_files_rec_irrelevant (node : FsNode) (dirPath : List String)
    (includeHidden : Bool) (fo : FilterOptions) :
    getFilesRecursively dirPath node true includeHidden "files" fo =
      getFilesRecursively dirPath node false includeHidden "files" fo := by
  cases node with
  | file c m => rfl
  | dir children r m =>
    by_cases hr : r = true
    · simp only [getFilesRecursively, if_pos hr]
      exact walkChildren_files_rec_irrelevant dirPath includeHidden fo children
    · simp only [getFilesRecursively, if_neg hr]

end ListFilesNode

namespace FsModel

theorem statOf_sealUnreadable (n : FsNode) : statOf (sealUnreadable n) = statOf n := by
  cases n with
  | file c m => rfl
  | dir children r m =>
    by_cases hr : r = true <;> simp [sealUnreadable, statOf, hr]

end FsModel

namespace FileUtils

open FsModel

mutual

theorem getFilesRecursively_seal :
    ∀ (node : FsNode) (dirPath : List String) (maxDepth currentDepth : Nat)
      (patterns excludePatterns : List (String → Bool)),
      getFilesRecursively dirPath (sealUnreadable node) maxDepth currentDepth
          patterns excludePatterns
        = getFilesRecursively dirPath node maxDepth currentDepth patterns excludePatterns
  | .file c m => by
    intro dirPath maxD curD pats ex
    rfl
  | .dir children r m => by
    intro dirPath maxD curD pats ex
    by_cases hr : r = true
    · simp only [sealUnreadable, hr, if_true]
      by_cases hd : curD ≥ maxD
      · simp [getFilesRecursively, hd]
      · simp only [getFilesRecursively, hd, if_false]
        exact utilsWalkChildren_seal children dirPath maxD curD pats ex
    · simp only [sealUnreadable, hr, if_false]
      by_cases hd : curD ≥ maxD
      · simp [getFilesRecursively, hd]
      · simp [getFilesRecursively, hd, hr, utilsWalkChildren]

theorem utilsWalkChildren_seal :
    ∀ (children : List (String × FsNode)) (dirPath : List String)
      (maxDepth currentDepth : Nat) (patterns excludePatterns : List (String → Bool)),
      utilsWalkChildren dirPath (sealUnreadableChildren children) maxDepth currentDepth
          patterns excludePatterns
        = utilsWalkChildren dirPath children maxDepth currentDepth patterns excludePatterns
  | [] => by
    intro dirPath maxD curD pats ex
    rfl
  | (item, child) :: rest => by
    intro dirPath maxD curD pats ex
    simp only [sealUnreadableChildren, utilsWalkChildren, statOf_sealUnreadable]
    rw [getFilesRecursively_seal child (dirPath ++ [item]) maxD (curD + 1) pats ex,
      utilsWalkChildren_seal rest dirPath maxD curD pats ex]

end

end FileUtils

/-- C1 counterexample: on a directory whose only child is the non-hidden
subdirectory `sub` containing `a.txt`, a recursive files-mode listing returns
no entries at all — the nested file does not appear, because the `listMode =
files` filter `continue`s past directories before the recursion step, so the
subdirectory is never traversed (contradicting the claim that descendants of
excluded directories remain discoverable). -/
theorem claim_C1_counterexample :
    ListFilesNode.getFilesRecursively [] Samples.nestedTree true false "files"
        ListFilesNode.noFilters = .ok [] ∧
    FsModel.lookup Samples.nestedTree ["sub", "a.txt"]
      = some (.file [104, 105] Samples.meta0) ∧
    FsModel.startsWithDot "sub" = false :=
  ⟨rfl, rfl, rfl⟩

/-- C1 (amended): a files-mode listing never returns an entry whose kind is
directory; but directories are excluded *before* the recursion step, so the
walk never descends into them: with `listMode = files` the recursive flag has
no effect on the result, and files nested inside subdirectories never
appear. -/
theorem claim_C1_amended :
    (∀ (node : FsModel.FsNode) (dirPath : List String)
        (recursive includeHidden : Bool) (fo : ListFilesNode.FilterOptions)
        (es : List ListFilesNode.ListEntry),
      ListFilesNode.getFilesRecursively dirPath node recursive includeHidden "files" fo
          = .ok es →
      ∀ e ∈ es, e.isDirectory = false) ∧
    (∀ (node : FsModel.FsNode) (dirPath : List String) (includeHidden : Bool)
        (fo : ListFilesNode.FilterOptions),
      ListFilesNode.getFilesRecursively dirPath node true includeHidden "files" fo
        = ListFilesNode.getFilesRecursively dirPath node false includeHidden "files" fo) :=
  ⟨fun node dirPath recursive includeHidden fo es h =>
      ListFilesNode.getFiles_files_no_dir node dirPath recursive includeHidden fo es h,
   fun node dirPath includeHidden fo =>
      ListFilesNode.getFiles_files_rec_irrelevant node dirPath includeHidden fo⟩

/-- C1 witness: the amended theorem applied to a one-file directory and to the
nested sample tree. -/
theorem claim_C1_amended_witness :
    Samples.helloEntry.isDirectory = false ∧
    ListFilesNode.getFilesRecursively [] Samples.nestedTree true false "files"
        ListFilesNode.noFilters
      = ListFilesNode.getFilesRecursively [] Samples.nestedTree false false "files"
          ListFilesNode.noFilters :=
  ⟨claim_C1_amended.1 Samples.helloState [] true false ListFilesNode.noFilters
      [Samples.helloEntry] rfl Samples.helloEntry (by simp),
   claim_C1_amended.2 Samples.nestedTree [] false ListFilesNode.noFilters⟩

/-- C3 counterexample: in the List node's own walk (which has no try/catch),
an unreadable subdirectory aborts the *whole* walk: on a root containing the
unreadable directory `locked` followed by the readable sibling `ok.txt`, the
walk returns the EACCES error to its caller — the subtree does not merely
contribute zero entries, the sibling is lost and the error propagates. -/
theorem claim_C3_counterexample :
    ListFilesNode.getFilesRecursively [] Samples.lockedTree true false "both"
        ListFilesNode.noFilters = .error "EACCES: permission denied" ∧
    FsModel.lookup Samples.lockedTree ["ok.txt"] = some (.file [111] Samples.meta0) :=
  ⟨rfl, rfl⟩

/-- C3 (amended): the failure policy holds for the shared recursive helper of
`utils/fileUtils.ts` only.  There, an unreadable directory behaves exactly
like an empty one — its subtree contributes zero entries, traversal continues
with the siblings, and no error reaches the caller (the walk is total).  The
List node's own walk has no such handling: an unreadable subdirectory aborts
the entire walk with the error propagated to the caller, as witnessed on a
concrete tree. -/
theorem claim_C3_amended :
    (∀ (node : FsModel.FsNode) (dirPath : List String) (maxDepth currentDepth : Nat)
        (patterns excludePatterns : List (String → Bool)),
      FileUtils.getFilesRecursively dirPath (FsModel.sealUnreadable node)
          maxDepth currentDepth patterns excludePatterns
        = FileUtils.getFilesRecursively dirPath node maxDepth currentDepth
            patterns excludePatterns) ∧
    ListFilesNode.getFilesRecursively [] Samples.lockedTree2 true false "both"
        ListFilesNode.noFilters = .error "EACCES: permission denied" :=
  ⟨fun node dirPath maxDepth currentDepth patterns excludePatterns =>
      FileUtils.getFilesRecursively_seal node dirPath maxDepth currentDepth
        patterns excludePatterns,
   rfl⟩

/-- C3 witness: the amended theorem applied to the locked sample tree — the
shared helper lists the unreadable directory and the sibling exactly as if
the locked subtree were empty. -/
theorem claim_C3_amended_witness :
    FileUtils.getFilesRecursively [] (FsModel.sealUnreadable Samples.lockedTree) 10 0 [] []
      = FileUtils.getFilesRecursively [] Samples.lockedTree 10 0 [] [] ∧
    ListFilesNode.getFilesRecursively [] Samples.lockedTree2 true false "both"
        ListFilesNode.noFilters = .error "EACCES: permission denied" :=
  ⟨(claim_C3_amended.1 Samples.lockedTree [] 10 0 [] []), claim_C3_amended.2⟩

/-- C2 (code bug): `CopyFile.execute` copies a directory with
`preserveTimestamps` through the helper *imported* from `utils/fileUtils`
(the unqualified call on line 194 resolves to the import, not to
`this.copyDirectoryRecursive`), and that helper restores timestamps only on
file children, never on the destination directory itself.  At the failing
input — source directory with atime 10 / mtime 20, clock 100 — the destination
directory comes out stamped ⟨100,100⟩ although its file child keeps ⟨1,2⟩;
the private dead-code method on the same class, embodying the specified
behaviour, would have produced ⟨10,20⟩ as its last step. -/
theorem claim_C2_bug :
    (CopyFileNode.execute Samples.copyState Samples.copyParams 100).1
      = .ok { success := true, copied := true, sourcePath := ["src"],
              destinationPath := ["dst"], sourceType := "directory",
              copiedBytes := 2 } ∧
    FsModel.lookup (CopyFileNode.execute Samples.copyState Samples.copyParams 100).2 ["dst"]
      = some (.dir [("a.txt", .file [104, 105] ⟨1, 2, 100, 420⟩)] true ⟨100, 100, 100, 511⟩) ∧
    FsModel.lookup Samples.copyState ["src"]
      = some (.dir [("a.txt", .file [104, 105] Samples.meta0)] true Samples.srcDirMeta) ∧
    CopyFileNode.privateCopyDirectoryRecursive 100 true
        (.dir [("a.txt", .file [104, 105] Samples.meta0)] true Samples.srcDirMeta)
      = .ok (.dir [("a.txt", .file [104, 105] ⟨1, 2, 100, 420⟩)] true ⟨10, 20, 100, 511⟩, 2) :=
  ⟨rfl, rfl, rfl, rfl⟩

/-- C6 counterexample: with confirmation required, the *configured* phrase
set to the empty string and the caller supplying "DELETE", the supplied text
differs from the configured phrase, yet the deletion succeeds and removes the
file — because the gate compares against `confirmationText || 'DELETE'`, the
empty configured phrase silently falls back to "DELETE". -/
theorem claim_C6_counterexample :
    Samples.deleteEmptyPhraseParams.confirmationProvided.getD ""
      ≠ Samples.deleteEmptyPhraseParams.confirmationText ∧
    Samples.deleteEmptyPhraseParams.requireConfirmation = true ∧
    (DeleteFileNode.execute Samples.deleteState Samples.deleteEmptyPhraseParams 100 "iso").1
      = .ok { success := true, deleted := true, skipped := false, backupPath := none } ∧
    FsModel.lookup
      (DeleteFileNode.execute Samples.deleteState Samples.deleteEmptyPhraseParams 100 "iso").2
      ["f.txt"] = none :=
  ⟨by decide, rfl, rfl, rfl⟩

/-- A confirmation mismatch (against the effective phrase) leaves the
filesystem unchanged and allows no outcome but an error or the
absent-path skip. -/
theorem DeleteFileNode.confirmationGate_blocks (state : FsModel.FsNode)
    (p : DeleteFileNode.DeleteParams) (now : Nat) (nowIso : String)
    (hreq : p.requireConfirmation = true)
    (hneq : p.confirmationProvided.getD ""
      ≠ (if p.confirmationText = "" then "DELETE" else p.confirmationText)) :
    (DeleteFileNode.execute state p now nowIso).2 = state ∧
    ∀ r, (DeleteFileNode.execute state p now nowIso).1 = .ok r →
      r.deleted = false ∧ r.skipped = true ∧ r.backupPath = none := by
  have hcond : (p.requireConfirmation && decide (p.confirmationProvided.getD ""
      ≠ (if p.confirmationText = "" then "DELETE" else p.confirmationText))) = true := by
    simp only [hreq, Bool.true_and, decide_eq_true_eq]
    exact hneq
  simp only [DeleteFileNode.execute, hcond, if_true]
  split
  · exact ⟨rfl, by simp⟩
  · split
    · split
      · exact ⟨rfl, fun r hr => by
          simp only [Except.ok.injEq] at hr
          subst hr
          exact ⟨rfl, rfl, rfl⟩⟩
      · exact ⟨rfl, by simp⟩
    · split
      · exact ⟨rfl, by simp⟩
      · split
        · exact ⟨rfl, by simp⟩
        · split
          · exact ⟨rfl, by simp⟩
          · exact ⟨rfl, by simp⟩

/-- C6 (amended): with the confirmation gate enabled, whenever the
caller-supplied confirmation string differs from the *effective* confirmation
phrase — the configured phrase, an empty configured phrase falling back to
"DELETE" — the invocation never deletes and never creates a backup: the
filesystem is returned unchanged, and the only non-error outcome is the
skipped-success taken when the path is absent with `skipIfNotExists`; the
confirmation gate fires before the backup step and before any destructive
action. -/
theorem claim_C6_amended (state : FsModel.FsNode) (p : DeleteFileNode.DeleteParams)
    (now : Nat) (nowIso : String)
    (hreq : p.requireConfirmation = true)
    (hneq : p.confirmationProvided.getD ""
      ≠ (if p.confirmationText = "" then "DELETE" else p.confirmationText)) :
    (DeleteFileNode.execute state p now nowIso).2 = state ∧
    ∀ r, (DeleteFileNode.execute state p now nowIso).1 = .ok r →
      r.deleted = false ∧ r.skipped = true ∧ r.backupPath = none :=
  DeleteFileNode.confirmationGate_blocks state p now nowIso hreq hneq

/-- C6 witness: the amended theorem applied to a one-file root with the
default phrase "DELETE" and no supplied confirmation — the state comes back
unchanged. -/
theorem claim_C6_amended_witness :
    (DeleteFileNode.execute Samples.deleteState Samples.deleteNoProvidedParams 100 "iso").2
      = Samples.deleteState :=
  (claim_C6_amended Samples.deleteState Samples.deleteNoProvidedParams 100 "iso" rfl
    (by decide)).1

/-- C9: the Delete File node's confirmation gate reads the parameter
`confirmationProvided`, which is declared neither among the node's top-level
properties nor inside the `safetyOptions` collection, and whose lookup
defaults to the empty string; hence with `requireConfirmation` enabled and a
non-empty configured phrase, an invocation whose host does not supply this
undeclared parameter never deletes anything: the filesystem is returned
unchanged and no successful-deletion record is produced. -/
theorem claim_C9 (state : FsModel.FsNode) (p : DeleteFileNode.DeleteParams)
    (now : Nat) (nowIso : String)
    (hreq : p.requireConfirmation = true)
    (htext : p.confirmationText ≠ "")
    (hprov : p.confirmationProvided = none) :
    ("confirmationProvided" ∉ DeleteFileNode.declaredPropertyNames ∧
     "confirmationProvided" ∉ DeleteFileNode.safetyOptionNames) ∧
    (DeleteFileNode.execute state p now nowIso).2 = state ∧
    ∀ r, (DeleteFileNode.execute state p now nowIso).1 = .ok r → r.deleted = false := by
  have hneq : p.confirmationProvided.getD ""
      ≠ (if p.confirmationText = "" then "DELETE" else p.confirmationText) := by
    rw [hprov, if_neg htext]
    exact fun h => htext h.symm
  obtain ⟨hstate, hres⟩ :=
    DeleteFileNode.confirmationGate_blocks state p now nowIso hreq hneq
  exact ⟨⟨by decide, by decide⟩, hstate, fun r hr => (hres r hr).1⟩

/-- C9 witness: at a one-file root with the default configuration and the
undeclared parameter absent, the state comes back unchanged. -/
theorem claim_C9_witness :
    (DeleteFileNode.execute Samples.deleteState Samples.deleteNoProvidedParams 100 "iso").2
      = Samples.deleteState ∧
    "confirmationProvided" ∉ DeleteFileNode.declaredPropertyNames :=
  ⟨(claim_C9 Samples.deleteState Samples.deleteNoProvidedParams 100 "iso" rfl
      (by decide) rfl).2.1,
   (claim_C9 Samples.deleteState Samples.deleteNoProvidedParams 100 "iso" rfl
      (by decide) rfl).1.1⟩

section ClaimC5

open FsModel MoveFileNode

/-- C5 counterexample: a move whose rename throws and whose fallback flag
is enabled does not always copy-then-delete.  With the source a file and the
destination an existing directory — overwrite enabled, so the overwrite gate
passes — the fallback `fs.copyFile` fails with EISDIR: the invocation
errors, the source file survives and the destination directory never
receives the content, contradicting the claim's unconditional
copy-and-delete outcome. -/
theorem claim_C5_counterexample :
    Samples.eisdirMoveParams.fallbackCopy = true ∧
    Samples.eisdirMoveParams.overwrite = true ∧
    (MoveFileNode.execute Samples.eisdirMoveState Samples.eisdirMoveParams
        (some "EXDEV") 100 "iso").1
      = .error "EISDIR: illegal operation on a directory" ∧
    FsModel.lookup (MoveFileNode.execute Samples.eisdirMoveState Samples.eisdirMoveParams
        (some "EXDEV") 100 "iso").2 ["a.txt"]
      = some (.file [104] Samples.meta0) ∧
    FsModel.lookup (MoveFileNode.execute Samples.eisdirMoveState Samples.eisdirMoveParams
        (some "EXDEV") 100 "iso").2 ["d"] = some (.dir [] true Samples.meta0) :=
  ⟨rfl, rfl, rfl, rfl, rfl⟩

/-- C5 (amended): every move attempts the atomic rename first.  On a vacant
destination path (parent existing), with a readable, duplicate-free source
disjoint from the destination and no backup requested: a successful rename
moves the node atomically; when the rename throws and the fallback flag is
on, the source (file or full subtree) is copied to the destination and then
recursively deleted, leaving the destination with the full source content
(same shape) and the source absent; when the fallback flag is off, the
rename error is surfaced wrapped with context ("Move failed and fallback is
disabled: ...") and the filesystem is left untouched.  On an occupied
destination the fallback copy can instead fail with EISDIR or merge — see
the counterexample. -/
theorem claim_C5_amended (state : FsNode) (p : MoveParams) (renameError : Option String)
    (now : Nat) (nowIso : String) (srcNode : FsNode)
    (hsrcne : p.sourcePath.isEmpty = false)
    (hdstne : p.destinationPath.isEmpty = false)
    (hsrc : lookup state p.sourcePath = some srcNode)
    (hmf : (p.moveMode = "file" && !(statOf srcNode).isFile) = false)
    (hmd : (p.moveMode = "directory" && !(statOf srcNode).isDirectory) = false)
    (hdabs : lookup state p.destinationPath = none)
    (hpar : dirAt state p.destinationPath.dropLast = true)
    (hcb : p.createBackup = false)
    (hread : allReadable srcNode = true)
    (hwf : nodupNames srcNode = true)
    (hd1 : ¬ p.sourcePath <+: p.destinationPath)
    (hd2 : ¬ p.destinationPath <+: p.sourcePath) :
    (renameError = none →
      ∃ st, MoveFileNode.execute state p renameError now nowIso
          = (.ok { success := true, moved := true, moveMethod := "atomic",
                   backupPath := none }, st) ∧
        lookup st p.destinationPath = some srcNode ∧
        lookup st p.sourcePath = none) ∧
    (∀ msg, renameError = some msg → p.fallbackCopy = true →
      ∃ st d, MoveFileNode.execute state p renameError now nowIso
          = (.ok { success := true, moved := true, moveMethod := "copy-delete",
                   backupPath := none }, st) ∧
        lookup st p.destinationPath = some d ∧
        shapeOf d = shapeOf srcNode ∧
        lookup st p.sourcePath = none) ∧
    (∀ msg, renameError = some msg → p.fallbackCopy = false →
      MoveFileNode.execute state p renameError now nowIso
        = (.error ("Move failed and fallback is disabled: " ++ msg), state)) := by
  have hsrcnil : p.sourcePath ≠ [] := by simpa using hsrcne
  have hdstnil : p.destinationPath ≠ [] := by simpa using hdstne
  have hov : ((lookup state p.destinationPath).isSome && !p.overwrite) = false := by
    simp [hdabs]
  have hn : (lookup state p.destinationPath.dropLast).isNone = false := by
    have := lookup_isSome_of_dirAt state p.destinationPath.dropLast hpar
    cases hx : lookup state p.destinationPath.dropLast
    · rw [hx] at this; simp at this
    · simp
  have hd1' : ¬ p.sourcePath <+: p.destinationPath.dropLast :=
    fun h => hd1 (h.trans ( List.dropLast_prefix p.destinationPath))
  refine ⟨?_, ?_, ?_⟩
  · -- atomic rename
    intro hre
    subst hre
    have hda : dirAt (removePath state p.sourcePath) p.destinationPath.dropLast = true := by
      rw [dirAt_removePath p.sourcePath p.destinationPath.dropLast state hd1']
      exact hpar
    obtain ⟨st, hset⟩ :=
      setPath_some_of_dirAt p.destinationPath (removePath state p.sourcePath) srcNode
        hda hdstnil
    refine ⟨st, ?_, ?_, ?_⟩
    · simp only [MoveFileNode.execute, hsrcne, hdstne, hsrc, hmf, hmd, hov, hcb, hn]
      simp [hset]
    · exact lookup_setPath p.destinationPath (removePath state p.sourcePath) st srcNode hset
    · rw [lookup_setPath_preserve p.destinationPath p.sourcePath
        (removePath state p.sourcePath) st srcNode hset hd2 hd1]
      exact lookup_removePath_self p.sourcePath state hsrcnil
  · -- fallback enabled
    intro msg hre hfb
    subst hre
    cases srcNode with
    | file content fm =>
      obtain ⟨st4, hset⟩ :=
        setPath_some_of_dirAt p.destinationPath state
          (.file content ⟨now, now, now, fm.mode⟩) hpar hdstnil
      refine ⟨removePath st4 p.sourcePath, .file content ⟨now, now, now, fm.mode⟩,
        ?_, ?_, ?_, ?_⟩
      · simp only [MoveFileNode.execute, hsrcne, hdstne, hsrc, hmf, hmd, hov, hcb, hn, hfb]
        simp [writeFileAt, hdabs, hset, statOf]
      · rw [lookup_removePath_preserve p.sourcePath p.destinationPath st4 hd1 hd2]
        exact lookup_setPath p.destinationPath state st4 _ hset
      · rfl
      · exact lookup_removePath_self p.sourcePath st4 hsrcnil
    | dir sc sr sm =>
      obtain ⟨st4, hrun, hsetp⟩ :=
        FileUtils.copyDirectoryRecursive_fresh (.dir sc sr sm) now false hread hwf
          sc sr sm rfl state p.destinationPath hdabs hpar
      refine ⟨removePath st4 p.sourcePath,
        FileUtils.copyTreeOnly now false (.dir sc sr sm), ?_, ?_, ?_, ?_⟩
      · simp only [MoveFileNode.execute, hsrcne, hdstne, hsrc, hmf, hmd, hov, hcb, hn, hfb]
        simp [hrun, statOf]
      · rw [lookup_removePath_preserve p.sourcePath p.destinationPath st4 hd1 hd2]
        exact lookup_setPath p.destinationPath state st4 _ hsetp
      · exact FileUtils.shapeOf_copyTreeOnly (.dir sc sr sm) now false
      · exact lookup_removePath_self p.sourcePath st4 hsrcnil
  · -- fallback disabled
    intro msg hre hfb
    subst hre
    simp only [MoveFileNode.execute, hsrcne, hdstne, hsrc, hmf, hmd, hov, hcb, hn, hfb]
    simp

/-- C5 witness: the amended theorem applied to a concrete root where the
rename is forced to fail with EXDEV and the fallback is enabled — the result
record reports the copy-delete method and the source directory is gone. -/
theorem claim_C5_amended_witness :
    (MoveFileNode.execute Samples.moveState Samples.moveParams (some "EXDEV") 100 "iso").1
      = .ok { success := true, moved := true, moveMethod := "copy-delete",
              backupPath := none } ∧
    FsModel.lookup
      (MoveFileNode.execute Samples.moveState Samples.moveParams (some "EXDEV") 100 "iso").2
      ["src"] = none := by
  obtain ⟨st, d, hex, hdst, hsh, hsrcnone⟩ :=
    (claim_C5_amended Samples.moveState Samples.moveParams (some "EXDEV") 100 "iso"
      (.dir [("a.txt", .file [104, 105] Samples.meta0)] true Samples.meta0)
      rfl rfl rfl rfl rfl rfl rfl rfl rfl rfl (by decide) (by decide)).2.1 "EXDEV" rfl rfl
  rw [hex]
  exact ⟨rfl, hsrcnone⟩

end ClaimC5

section ClaimC7

open FsModel CopyFileNode

/-- C7: copying a file to a new (vacant) destination path yields a
destination whose bytes are identical to the source (hence of the same
size), with the reported copied-bytes equal to the file's byte length; and a
recursive directory copy to a vacant path reports exactly the sum of the
file payload sizes of the subtree (directories contributing 0) while the
destination receives the full source shape.  Vacancy of the destination
captures the claim's "new path"; the directory half additionally assumes a
readable source with duplicate-free listings (`nodupNames`), as real
`readdir` results are. -/
theorem claim_C7 :
    (∀ (state : FsNode) (p : CopyParams) (now : Nat) (content : List Nat) (fm : FileMeta),
      p.sourcePath.isEmpty = false →
      p.destinationPath.isEmpty = false →
      lookup state p.sourcePath = some (.file content fm) →
      p.copyMode ≠ "directory" →
      lookup state p.destinationPath = none →
      dirAt state p.destinationPath.dropLast = true →
      ∃ st dm, CopyFileNode.execute state p now
          = (.ok { success := true, copied := true, sourcePath := p.sourcePath,
                   destinationPath := p.destinationPath, sourceType := "file",
                   copiedBytes := content.length }, st) ∧
        lookup st p.destinationPath = some (.file content dm)) ∧
    (∀ (state : FsNode) (p : CopyParams) (now : Nat)
        (sc : List (String × FsNode)) (sr : Bool) (sm : FileMeta),
      p.sourcePath.isEmpty = false →
      p.destinationPath.isEmpty = false →
      lookup state p.sourcePath = some (.dir sc sr sm) →
      p.copyMode ≠ "file" →
      p.recursive = true →
      lookup state p.destinationPath = none →
      dirAt state p.destinationPath.dropLast = true →
      allReadable (.dir sc sr sm) = true →
      nodupNames (.dir sc sr sm) = true →
      ∃ st d, CopyFileNode.execute state p now
          = (.ok { success := true, copied := true, sourcePath := p.sourcePath,
                   destinationPath := p.destinationPath, sourceType := "directory",
                   copiedBytes := sumFileSizes (.dir sc sr sm) }, st) ∧
        lookup st p.destinationPath = some d ∧
        shapeOf d = shapeOf (.dir sc sr sm)) := by
  constructor
  · intro state p now content fm hsrcne hdstne hsrc hmode hdabs hpar
    have hdstnil : p.destinationPath ≠ [] := by simpa using hdstne
    have hov : ((lookup state p.destinationPath).isSome && !p.overwrite) = false := by
      simp [hdabs]
    have hn : (lookup state p.destinationPath.dropLast).isNone = false := by
      have := lookup_isSome_of_dirAt state p.destinationPath.dropLast hpar
      cases hx : lookup state p.destinationPath.dropLast
      · rw [hx] at this; simp at this
      · simp
    obtain ⟨st, hset⟩ :=
      setPath_some_of_dirAt p.destinationPath state
        (.file content (if p.preserveTimestamps then ⟨fm.atime, fm.mtime, now, fm.mode⟩
          else ⟨now, now, now, fm.mode⟩)) hpar hdstnil
    refine ⟨st, (if p.preserveTimestamps then ⟨fm.atime, fm.mtime, now, fm.mode⟩
      else ⟨now, now, now, fm.mode⟩), ?_, ?_⟩
    · simp only [CopyFileNode.execute, hsrcne, hdstne, hsrc, hmode, hov, hn]
      simp [writeFileAt, hdabs, hset, statOf, hmode]
    · exact lookup_setPath p.destinationPath state st _ hset
  · intro state p now sc sr sm hsrcne hdstne hsrc hmode hrec hdabs hpar hread hnodup
    have hov : ((lookup state p.destinationPath).isSome && !p.overwrite) = false := by
      simp [hdabs]
    have hn : (lookup state p.destinationPath.dropLast).isNone = false := by
      have := lookup_isSome_of_dirAt state p.destinationPath.dropLast hpar
      cases hx : lookup state p.destinationPath.dropLast
      · rw [hx] at this; simp at this
      · simp
    obtain ⟨st, hrun, hsetp⟩ :=
      FileUtils.copyDirectoryRecursive_fresh (.dir sc sr sm) now p.preserveTimestamps
        hread hnodup sc sr sm rfl state p.destinationPath hdabs hpar
    refine ⟨st, FileUtils.copyTreeOnly now p.preserveTimestamps (.dir sc sr sm), ?_, ?_, ?_⟩
    · simp only [CopyFileNode.execute, hsrcne, hdstne, hsrc, hmode, hov, hn, hrec]
      simp [hrun, statOf, hmode]
    · exact lookup_setPath p.destinationPath state st _ hsetp
    · exact FileUtils.shapeOf_copyTreeOnly (.dir sc sr sm) now p.preserveTimestamps

/-- C7 witness: the theorem's file half applied to copying the 5-byte
"hello" file to a vacant path, and its directory half applied to a 2-byte
directory copy onto a vacant path. -/
theorem claim_C7_witness :
    (CopyFileNode.execute Samples.helloState
        ⟨["f.txt"], ["g.txt"], false, true, true, "auto", true⟩ 100).1
      = .ok { success := true, copied := true, sourcePath := ["f.txt"],
              destinationPath := ["g.txt"], sourceType := "file",
              copiedBytes := 5 } ∧
    (CopyFileNode.execute Samples.copyState Samples.copyParams 100).1
      = .ok { success := true, copied := true, sourcePath := ["src"],
              destinationPath := ["dst"], sourceType := "directory",
              copiedBytes := 2 } := by
  obtain ⟨st1, dm1, hex1, hl1⟩ :=
    claim_C7.1 Samples.helloState ⟨["f.txt"], ["g.txt"], false, true, true, "auto", true⟩
      100 (asciiBytes "hello") Samples.meta0 rfl rfl rfl (by decide) rfl rfl
  obtain ⟨st2, d2, hex2, hl2, hs2⟩ :=
    claim_C7.2 Samples.copyState Samples.copyParams 100
      [("a.txt", .file [104, 105] Samples.meta0)] true Samples.srcDirMeta
      rfl rfl rfl (by decide) rfl rfl rfl rfl rfl
  rw [hex1, hex2]
  exact ⟨rfl, rfl⟩

end ClaimC7



section ClaimC8

open FsModel FileInfoNode

/-- C8 counterexample: for the five-byte file "hello", the checksum the
file-info operation reports is exactly the genuine MD5 digest of the full
content (the digest of the `MD5.md5Hex` implementation validated against the
RFC 1321 test vectors), not a placeholder: the `calculateChecksum` call in
`execute` resolves to the *imported* `utils/fileUtils` helper, which feeds
the whole file through Node's crypto MD5; the in-class placeholder
(`md5-<length>-<timestamp>`) is dead code. -/
theorem claim_C8_counterexample :
    (FileInfoNode.execute Samples.helloState ⟨["f.txt"], true⟩).map (fun r => r.checksum)
      = .ok (some (MD5.md5Hex (asciiBytes "hello"))) ∧
    MD5.md5Hex (asciiBytes "hello") = "5d41402abc4b2a76b9719d911017c592" ∧
    FileInfoNode.privateMd5Placeholder Samples.helloState ["f.txt"] 1234
      = .ok "md5-5-1234" :=
  ⟨rfl, by decide, rfl⟩

/-- C8 (amended): the `FileInfo` class does contain a private
`calculateMd5Checksum` placeholder that returns `md5-<length>-<timestamp>`
instead of a digest, but it is never invoked: the unqualified call in
`execute` resolves to the import from `utils/fileUtils`, which computes a
genuine MD5 over the full file content, so for every non-empty file the
reported checksum is the actual MD5 digest of its bytes. -/
theorem claim_C8_amended (state : FsNode) (path : List String) (c : List Nat)
    (hempty : path.isEmpty = false)
    (hread : FileUtils.readFile state path = .ok c)
    (hlen : c ≠ []) :
    (FileInfoNode.execute state ⟨path, true⟩).map (fun r => r.checksum)
      = .ok (some (MD5.md5Hex c)) := by
  cases hl : lookup state path with
  | none => simp [FileUtils.readFile, hl] at hread
  | some node =>
    cases node with
    | dir dc dr dm => simp [FileUtils.readFile, hl] at hread
    | file fc fm =>
      have hc : fc = c := by simpa [FileUtils.readFile, hl] using hread
      subst hc
      have hpos : 0 < fc.length := List.length_pos.mpr hlen
      simp [FileInfoNode.execute, hempty, hl, statOf, FileUtils.calculateMd5Checksum,
        FileUtils.readFile, hpos, Except.map]

/-- C8 witness: the amended theorem applied to the "hello" file. -/
theorem claim_C8_amended_witness :
    (FileInfoNode.execute Samples.helloState ⟨["f.txt"], true⟩).map (fun r => r.checksum)
      = .ok (some (MD5.md5Hex (asciiBytes "hello"))) :=
  claim_C8_amended Samples.helloState ["f.txt"] (asciiBytes "hello") rfl rfl (by decide)

end ClaimC8

section ClaimC10

open FileExistsNode

/-- Link-chain resolution never lands on a symlink: it either runs out of
fuel, dangles, or stops at a file or directory. -/
theorem resolveNode_not_symlink (fs : SymFs) :
    ∀ (fuel : Nat) (p : List String) (n : SymNode),
      resolveNode fs fuel p = some n → n.isSymlink = false := by
  intro fuel
  induction fuel with
  | zero => intro p n h; simp [resolveNode] at h
  | succ k ih =>
    intro p n h
    simp only [resolveNode] at h
    cases hl : symLookup fs p with
    | none => rw [hl] at h; simp at h
    | some node =>
      cases node with
      | symlink t =>
        rw [hl] at h
        exact ih t n h
      | file sz =>
        rw [hl] at h
        simp only [Option.some.injEq] at h
        subst h
        rfl
      | dir =>
        rw [hl] at h
        simp only [Option.some.injEq] at h
        subst h
        rfl

/-- C10: in the exists operation, symlink-hood is probed on the
link-following `fs.stat`, which never reports a symbolic link; consequently
the details record always carries `isSymbolicLink = false` and never a
`realPath`, even when `resolveSymlinks` is enabled. -/
theorem claim_C10 :
    (∀ (fs : SymFs) (fuel : Nat) (p : List String) (st : SymStat),
      statFollow fs fuel p = some st → st.isSymbolicLink = false) ∧
    (∀ (fs : SymFs) (fuel : Nat) (pr : ExistsParams) (r : ExistsReport)
        (d : ExistsDetails),
      FileExistsNode.execute fs fuel pr = .ok r → r.details = some d →
      d.isSymbolicLink = false ∧ d.realPath = none) := by
  have hstat : ∀ (fs : SymFs) (fuel : Nat) (p : List String) (st : SymStat),
      statFollow fs fuel p = some st → st.isSymbolicLink = false := by
    intro fs fuel p st h
    simp only [statFollow, Option.map_eq_some'] at h
    obtain ⟨n, hn, hst⟩ := h
    have := resolveNode_not_symlink fs fuel p n hn
    subst hst
    cases n <;> simp_all [symStatOf, SymNode.isSymlink]
  refine ⟨hstat, ?_⟩
  intro fs fuel pr r d hok hd
  by_cases hempty : pr.filePath.isEmpty = true
  · simp [FileExistsNode.execute, hempty] at hok
  · simp only [FileExistsNode.execute, hempty, Bool.false_eq_true, if_false,
      Except.ok.injEq] at hok
    subst hok
    cases hst : statFollow fs fuel pr.filePath with
    | none => simp [hst] at hd
    | some stt =>
      have hsym : stt.isSymbolicLink = false := hstat fs fuel pr.filePath stt hst
      by_cases hinc : pr.includeDetails = true
      · simp only [hst, hinc, if_true, hsym, Bool.and_false, Bool.false_eq_true,
          if_false, Option.some.injEq] at hd
        subst hd
        exact ⟨rfl, rfl⟩
      · simp [hst, hinc] at hd

/-- C10 witness: the theorem applied to a view where `ln` is an actual
symbolic link to the 3-byte file `tgt`, with details and symlink resolution
both enabled: the reported details show a plain file, no symlink flag and no
real path. -/
theorem claim_C10_witness :
    (⟨"file", 3, true, false, false, none⟩ : ExistsDetails).isSymbolicLink = false ∧
    (⟨"file", 3, true, false, false, none⟩ : ExistsDetails).realPath = none :=
  claim_C10.2 Samples.symFs 10 Samples.existsParams
    ⟨["ln"], "ln", true, true, true, some ⟨"file", 3, true, false, false, none⟩⟩
    ⟨"file", 3, true, false, false, none⟩ rfl rfl

end ClaimC10

namespace FsModel

theorem dirAt_setPath_preserve (p : List String) :
    ∀ (q : List String) (s t n : FsNode), setPath s p n = some t →
      ¬ p <+: q → dirAt t q = dirAt s q := by
  induction p with
  | nil => intro q s t n _ h1; exact absurd List.nil_prefix h1
  | cons name rest ih =>
    intro q s t n h h1
    cases s with
    | file c m => simp [setPath] at h
    | dir children r m =>
      cases q with
      | nil =>
        cases rest with
        | nil =>
          simp only [setPath, Option.some.injEq] at h
          subst h
          simp [dirAt, lookup]
        | cons r2 rs =>
          simp only [setPath] at h
          cases hc : lookupChild children name with
          | none => simp [hc] at h
          | some child =>
            simp only [hc] at h
            cases hs : setPath child (r2 :: rs) n with
            | none => simp [hs] at h
            | some child2 =>
              simp only [hs, Option.some.injEq] at h
              subst h
              simp [dirAt, lookup]
      | cons qn qrest =>
        by_cases hq : qn = name
        · subst hq
          have h1' : ¬ rest <+: qrest := fun hp => h1 (List.cons_prefix_cons.mpr ⟨rfl, hp⟩)
          cases rest with
          | nil =>
            exact absurd (List.cons_prefix_cons.mpr ⟨rfl, List.nil_prefix⟩) h1
          | cons r2 rs =>
            simp only [setPath] at h
            cases hc : lookupChild children qn with
            | none => simp [hc] at h
            | some child =>
              simp only [hc] at h
              cases hs : setPath child (r2 :: rs) n with
              | none => simp [hs] at h
              | some child2 =>
                simp only [hs, Option.some.injEq] at h
                subst h
                simpa [dirAt, lookup, hc, lookupChild_setChild_self]
                  using ih qrest child child2 n hs h1'
        · cases rest with
          | nil =>
            simp only [setPath, Option.some.injEq] at h
            subst h
            simp [dirAt, lookup, lookupChild_setChild_ne _ _ _ _ hq]
          | cons r2 rs =>
            simp only [setPath] at h
            cases hc : lookupChild children name with
            | none => simp [hc] at h
            | some child =>
              simp only [hc] at h
              cases hs : setPath child (r2 :: rs) n with
              | none => simp [hs] at h
              | some child2 =>
                simp only [hs, Option.some.injEq] at h
                subst h
                simp [dirAt, lookup, lookupChild_setChild_ne _ _ _ _ hq]

end FsModel

section ClaimC4

open FsModel DeleteFileNode MoveFileNode

/-- C4 counterexample: a move invocation with a pre-operation backup
requested on a directory target does *not* raise an error: it returns a
success record and the directory is in fact moved (the source is gone
afterwards) — only a metadata marker is written in place of a real backup,
contradicting the claim that both move and delete must fail loudly and leave
the directory in place. -/
theorem claim_C4_counterexample :
    Samples.moveBackupParams.createBackup = true ∧
    FsModel.lookup Samples.moveBackupState ["srcdir"]
      = some (.dir [("a.txt", .file [104] Samples.meta0)] true Samples.meta0) ∧
    (MoveFileNode.execute Samples.moveBackupState Samples.moveBackupParams none 100
        "2024-01-01T00:00:00.000Z").1
      = .ok { success := true, moved := true, moveMethod := "atomic",
              backupPath := some ["tmp", "srcdir.backup.2024-01-01T00-00-00-000Z"] } ∧
    FsModel.lookup (MoveFileNode.execute Samples.moveBackupState Samples.moveBackupParams
        none 100 "2024-01-01T00:00:00.000Z").2 ["srcdir"] = none :=
  ⟨rfl, rfl, rfl, rfl⟩

/-- A delete request with backup on a directory target errors out before any
deletion: the backup-step `fs.mkdir` succeeds on the unobstructed backup
directory, then the directory branch throws; the target directory
survives. -/
theorem DeleteFileNode.directoryBackup_errors (state : FsNode) (p : DeleteParams)
    (now : Nat) (nowIso : String)
    (sc : List (String × FsNode)) (sr : Bool) (sm : FileMeta)
    (hne : p.filePath.isEmpty = false)
    (hsrc : lookup state p.filePath = some (.dir sc sr sm))
    (hmode : p.deleteMode ≠ "file")
    (hconf : (p.requireConfirmation && decide (p.confirmationProvided.getD ""
      ≠ (if p.confirmationText = "" then "DELETE" else p.confirmationText))) = false)
    (hcb : p.createBackup = true)
    (hclear : pathClear state
      (if p.backupDirectory.isEmpty then ["tmp"] else p.backupDirectory) = true) :
    (DeleteFileNode.execute state p now nowIso).1
      = .error "Directory backup not implemented in this simplified version" ∧
    dirAt (DeleteFileNode.execute state p now nowIso).2 p.filePath = true := by
  have hd : dirAt state p.filePath = true := by simp [dirAt, hsrc]
  set bd := (if p.backupDirectory.isEmpty then ["tmp"] else p.backupDirectory) with hbd
  have hbdn : (if p.backupDirectory = ([] : List String) then ["tmp"]
      else p.backupDirectory) = bd := by
    rw [hbd]
    by_cases hh : p.backupDirectory = [] <;> simp [hh]
  have hmk : mkdirRec state bd now = .ok (mkdirp state bd now) :=
    mkdirRec_eq_mkdirp bd state now hclear
  constructor
  · simp only [DeleteFileNode.execute, hne, hsrc, hconf, hcb, statOf]
    simp [hmode, List.dropLast_concat, hbdn, hmk]
  · simp only [DeleteFileNode.execute, hne, hsrc, hconf, hcb, statOf]
    simp [hmode, List.dropLast_concat, hbdn, hmk]
    exact dirAt_mkdirp_preserve bd p.filePath state now hd

/-- A move request with backup on a directory source writes only the `.info`
marker (the marker path being vacant and the backup directory unobstructed)
and then proceeds with the move. -/
theorem MoveFileNode.directoryBackup_marker_proceeds (state : FsNode) (p : MoveParams) (now : Nat) (nowIso : String)
    (sc : List (String × FsNode)) (sr : Bool) (sm : FileMeta)
    (hsrcne : p.sourcePath.isEmpty = false)
    (hdstne : p.destinationPath.isEmpty = false)
    (hsrc : lookup state p.sourcePath = some (.dir sc sr sm))
    (hmode : p.moveMode ≠ "file")
    (hov : ((lookup state p.destinationPath).isSome && !p.overwrite) = false)
    (hpar : dirAt state p.destinationPath.dropLast = true)
    (hcb : p.createBackup = true)
    (hclear : pathClear state
      (if p.backupDirectory.isEmpty then ["tmp"] else p.backupDirectory) = true)
    (hmabs : lookup state
        ((if p.backupDirectory.isEmpty then ["tmp"] else p.backupDirectory) ++
          [basenameOf p.sourcePath ++ ".backup." ++ sanitizeIso nowIso ++ ".info"]) = none)
    (hd1 : ¬ p.sourcePath <+: p.destinationPath)
    (hd2 : ¬ p.destinationPath <+: p.sourcePath)
    (hm1 : ¬ ((if p.backupDirectory.isEmpty then ["tmp"] else p.backupDirectory) ++
        [basenameOf p.sourcePath ++ ".backup." ++ sanitizeIso nowIso ++ ".info"])
      <+: p.destinationPath)
    (hm2 : ¬ p.destinationPath <+:
      ((if p.backupDirectory.isEmpty then ["tmp"] else p.backupDirectory) ++
        [basenameOf p.sourcePath ++ ".backup." ++ sanitizeIso nowIso ++ ".info"]))
    (hm3 : ¬ p.sourcePath <+:
      ((if p.backupDirectory.isEmpty then ["tmp"] else p.backupDirectory) ++
        [basenameOf p.sourcePath ++ ".backup." ++ sanitizeIso nowIso ++ ".info"]))
    (hm4 : ¬ ((if p.backupDirectory.isEmpty then ["tmp"] else p.backupDirectory) ++
        [basenameOf p.sourcePath ++ ".backup." ++ sanitizeIso nowIso ++ ".info"])
      <+: p.sourcePath) :
    ∃ st, MoveFileNode.execute state p none now nowIso
        = (.ok { success := true, moved := true, moveMethod := "atomic",
                 backupPath := some
                   ((if p.backupDirectory.isEmpty then ["tmp"] else p.backupDirectory) ++
                     [basenameOf p.sourcePath ++ ".backup." ++ sanitizeIso nowIso]) }, st) ∧
      lookup st ((if p.backupDirectory.isEmpty then ["tmp"] else p.backupDirectory) ++
          [basenameOf p.sourcePath ++ ".backup." ++ sanitizeIso nowIso ++ ".info"])
        = some (.file (asciiBytes (directoryBackupMarker p.sourcePath nowIso))
            ⟨now, now, now, 438⟩) ∧
      lookup st p.destinationPath = some (.dir sc sr sm) ∧
      lookup st p.sourcePath = none := by
  have hsrcnil : p.sourcePath ≠ [] := by simpa using hsrcne
  have hdstnil : p.destinationPath ≠ [] := by simpa using hdstne
  have hn : (lookup state p.destinationPath.dropLast).isNone = false := by
    have := lookup_isSome_of_dirAt state p.destinationPath.dropLast hpar
    cases hx : lookup state p.destinationPath.dropLast
    · rw [hx] at this; simp at this
    · simp
  -- abbreviations
  set bd := (if p.backupDirectory.isEmpty then ["tmp"] else p.backupDirectory) with hbd
  set mp := bd ++ [basenameOf p.sourcePath ++ ".backup." ++ sanitizeIso nowIso ++ ".info"]
    with hmp
  have hmpnil : mp ≠ [] := by simp [hmp]
  -- the backup-directory mkdir
  have hmkb : mkdirRec state bd now = .ok (mkdirp state bd now) :=
    mkdirRec_eq_mkdirp bd state now hclear
  have hstate2 : dirAt (mkdirp state bd now) bd = true := dirAt_mkdirp_self bd state now hclear
  have hmpdrop : mp.dropLast = bd := by simp [hmp]
  -- the marker path is still vacant after the mkdir
  have hlkm : lookup (mkdirp state bd now) mp = none := by
    rw [hmp]
    rw [hmp] at hmabs
    exact lookup_concat_mkdirp_none bd _ state now hclear hmabs
  -- marker write succeeds
  obtain ⟨state3, hset3⟩ := setPath_some_of_dirAt mp (mkdirp state bd now)
    (.file (asciiBytes (directoryBackupMarker p.sourcePath nowIso)) ⟨now, now, now, 438⟩)
    (by rw [hmpdrop]; exact hstate2) hmpnil
  have hwfm : writeFileAt (mkdirp state bd now) mp
      (asciiBytes (directoryBackupMarker p.sourcePath nowIso)) ⟨now, now, now, 438⟩
      = .ok state3 := by
    simp only [writeFileAt, hlkm, hset3]
  -- the atomic rename succeeds
  have hd1' : ¬ p.sourcePath <+: p.destinationPath.dropLast :=
    fun h => hd1 (h.trans ( List.dropLast_prefix p.destinationPath))
  have hm1' : ¬ mp <+: p.destinationPath.dropLast :=
    fun h => hm1 (h.trans ( List.dropLast_prefix p.destinationPath))
  have hda : dirAt (removePath state3 p.sourcePath) p.destinationPath.dropLast = true := by
    rw [dirAt_removePath p.sourcePath p.destinationPath.dropLast state3 hd1']
    rw [dirAt_setPath_preserve mp p.destinationPath.dropLast (mkdirp state bd now) state3
      _ hset3 hm1']
    exact dirAt_mkdirp_preserve bd p.destinationPath.dropLast state now hpar
  obtain ⟨state4, hset4⟩ := setPath_some_of_dirAt p.destinationPath
    (removePath state3 p.sourcePath) (.dir sc sr sm) hda hdstnil
  refine ⟨state4, ?_, ?_, ?_, ?_⟩
  · have hbdn : (if p.backupDirectory = ([] : List String) then ["tmp"]
        else p.backupDirectory) = bd := by
      rw [hbd]
      by_cases hh : p.backupDirectory = [] <;> simp [hh]
    simp only [MoveFileNode.execute, hsrcne, hdstne, hsrc, hov, hcb, hn, statOf]
    simp only [hmode]
    simp [hbdn, hmkb, ← hmp, hwfm, hset4, List.dropLast_concat]
  · rw [lookup_setPath_preserve p.destinationPath mp (removePath state3 p.sourcePath)
      state4 _ hset4 hm2 hm1]
    rw [lookup_removePath_preserve p.sourcePath mp state3 hm3 hm4]
    exact lookup_setPath mp (mkdirp state bd now) state3 _ hset3
  · exact lookup_setPath p.destinationPath (removePath state3 p.sourcePath) state4 _ hset4
  · rw [lookup_setPath_preserve p.destinationPath p.sourcePath
      (removePath state3 p.sourcePath) state4 _ hset4 hd2 hd1]
    exact lookup_removePath_self p.sourcePath state3 hsrcnil

/-- C4 (amended): the two operations diverge.  Delete: requesting a backup
of a directory — with the backup directory path unobstructed, so the
backup-step `fs.mkdir` itself succeeds — raises the error "Directory backup
not implemented in this simplified version" before any destructive action,
and the directory remains in place.  Move: requesting a backup of a
directory does not raise — provided the backup directory is unobstructed and
the marker path vacant, a JSON metadata marker (`<backup>.info`) is written
instead of a real backup and the move proceeds, removing the source. -/
theorem claim_C4_amended :
    (∀ (state : FsNode) (p : DeleteParams) (now : Nat) (nowIso : String)
        (sc : List (String × FsNode)) (sr : Bool) (sm : FileMeta),
      p.filePath.isEmpty = false →
      lookup state p.filePath = some (.dir sc sr sm) →
      p.deleteMode ≠ "file" →
      (p.requireConfirmation && decide (p.confirmationProvided.getD ""
        ≠ (if p.confirmationText = "" then "DELETE" else p.confirmationText))) = false →
      p.createBackup = true →
      pathClear state
        (if p.backupDirectory.isEmpty then ["tmp"] else p.backupDirectory) = true →
      (DeleteFileNode.execute state p now nowIso).1
          = .error "Directory backup not implemented in this simplified version" ∧
        dirAt (DeleteFileNode.execute state p now nowIso).2 p.filePath = true) ∧
    (∀ (state : FsNode) (p : MoveParams) (now : Nat) (nowIso : String)
        (sc : List (String × FsNode)) (sr : Bool) (sm : FileMeta),
      p.sourcePath.isEmpty = false →
      p.destinationPath.isEmpty = false →
      lookup state p.sourcePath = some (.dir sc sr sm) →
      p.moveMode ≠ "file" →
      ((lookup state p.destinationPath).isSome && !p.overwrite) = false →
      dirAt state p.destinationPath.dropLast = true →
      p.createBackup = true →
      pathClear state
        (if p.backupDirectory.isEmpty then ["tmp"] else p.backupDirectory) = true →
      lookup state
          ((if p.backupDirectory.isEmpty then ["tmp"] else p.backupDirectory) ++
            [basenameOf p.sourcePath ++ ".backup." ++ sanitizeIso nowIso ++ ".info"])
        = none →
      ¬ p.sourcePath <+: p.destinationPath →
      ¬ p.destinationPath <+: p.sourcePath →
      ¬ ((if p.backupDirectory.isEmpty then ["tmp"] else p.backupDirectory) ++
          [basenameOf p.sourcePath ++ ".backup." ++ sanitizeIso nowIso ++ ".info"])
        <+: p.destinationPath →
      ¬ p.destinationPath <+:
        ((if p.backupDirectory.isEmpty then ["tmp"] else p.backupDirectory) ++
          [basenameOf p.sourcePath ++ ".backup." ++ sanitizeIso nowIso ++ ".info"]) →
      ¬ p.sourcePath <+:
        ((if p.backupDirectory.isEmpty then ["tmp"] else p.backupDirectory) ++
          [basenameOf p.sourcePath ++ ".backup." ++ sanitizeIso nowIso ++ ".info"]) →
      ¬ ((if p.backupDirectory.isEmpty then ["tmp"] else p.backupDirectory) ++
          [basenameOf p.sourcePath ++ ".backup." ++ sanitizeIso nowIso ++ ".info"])
        <+: p.sourcePath →
      ∃ st, MoveFileNode.execute state p none now nowIso
          = (.ok { success := true, moved := true, moveMethod := "atomic",
                   backupPath := some
                     ((if p.backupDirectory.isEmpty then ["tmp"] else p.backupDirectory) ++
                       [basenameOf p.sourcePath ++ ".backup." ++ sanitizeIso nowIso]) }, st) ∧
        lookup st ((if p.backupDirectory.isEmpty then ["tmp"] else p.backupDirectory) ++
            [basenameOf p.sourcePath ++ ".backup." ++ sanitizeIso nowIso ++ ".info"])
          = some (.file (asciiBytes (directoryBackupMarker p.sourcePath nowIso))
              ⟨now, now, now, 438⟩) ∧
        lookup st p.destinationPath = some (.dir sc sr sm) ∧
        lookup st p.sourcePath = none) :=
  ⟨fun state p now nowIso sc sr sm h1 h2 h3 h4 h5 h6 =>
    DeleteFileNode.directoryBackup_errors state p now nowIso sc sr sm h1 h2 h3 h4 h5 h6,
   fun state p now nowIso sc sr sm h1 h2 h3 h4 h5 h6 h7 h8 h9 h10 h11 h12 h13 h14 h15 =>
    MoveFileNode.directoryBackup_marker_proceeds state p now nowIso sc sr sm
      h1 h2 h3 h4 h5 h6 h7 h8 h9 h10 h11 h12 h13 h14 h15⟩

/-- C4 witness: the amended theorem at concrete inputs — the delete half on
a root holding `srcdir` with an existing empty `tmp` (backup refused,
directory still there), the move half on the same root (marker written,
source moved). -/
theorem claim_C4_amended_witness :
    (DeleteFileNode.execute Samples.moveBackupState Samples.deleteBackupParams 100 "iso").1
      = .error "Directory backup not implemented in this simplified version" ∧
    FsModel.dirAt
      (DeleteFileNode.execute Samples.moveBackupState Samples.deleteBackupParams 100 "iso").2
      ["srcdir"] = true ∧
    FsModel.lookup (MoveFileNode.execute Samples.moveBackupState Samples.moveBackupParams
        none 100 "2024-01-01T00:00:00.000Z").2
      ["tmp", "srcdir.backup.2024-01-01T00-00-00-000Z.info"]
      = some (.file (asciiBytes (MoveFileNode.directoryBackupMarker ["srcdir"]
          "2024-01-01T00:00:00.000Z")) ⟨100, 100, 100, 438⟩) := by
  obtain ⟨herr, hdir⟩ :=
    claim_C4_amended.1 Samples.moveBackupState Samples.deleteBackupParams 100 "iso"
      [("a.txt", .file [104] Samples.meta0)] true Samples.meta0
      rfl rfl (by decide) rfl rfl rfl
  obtain ⟨st, hex, hmarker, hdst, hsrcnone⟩ :=
    claim_C4_amended.2 Samples.moveBackupState Samples.moveBackupParams 100
      "2024-01-01T00:00:00.000Z"
      [("a.txt", .file [104] Samples.meta0)] true Samples.meta0
      rfl rfl rfl (by decide) rfl rfl rfl rfl rfl (by decide) (by decide) (by decide)
      (by decide) (by decide) (by decide)
  refine ⟨herr, hdir, ?_⟩
  rw [hex]
  exact hmarker

end ClaimC4
